import Mathlib

/-!
# MatrixMultiply.cpp: the `Matrix` class and its overflow-checked product

A shallow embedding of `src/MatrixMultiply.cpp`.

* `size_t` values are natural numbers; `SIZE_MAX` is
  `std::numeric_limits<size_t>::max()` of a 64-bit platform.
* `std::vector` is `List`; `v[i]` outside the vector is undefined behaviour in
  C++ and is the outcome `Outcome.undefined` here, as is the integer division
  by zero.  Allocation is assumed to succeed.
* A C++ exception is its class together with its `what()` message.
* `double` arithmetic is not fixed: every function takes the operations it
  uses (`*`, `+`, `/`, `!=`, `<`, `0.0`) as a record `Scalar α`, so that the
  structural theorems hold for every arithmetic, IEEE-754 included.  `ratOps`
  is exact arithmetic on `ℚ`, with which `double` agrees as long as every
  intermediate value is exactly representable; `extOps` is binary64 arithmetic:
  every finite result is the exact rational result rounded to the nearest
  `double`, ties to even, with gradual underflow and overflow to an infinity.
-/

namespace MatrixMultiply

/-! ## Exceptions and outcomes -/

/-- The standard exception classes thrown by the program. -/
inductive ExcClass where
  | invalid_argument
  | out_of_range
  | overflow_error
  | runtime_error
  deriving DecidableEq

/-- A thrown exception: its class and the string returned by `what()`. -/
structure Exc where
  cls : ExcClass
  what : String
  deriving DecidableEq

/-- The result of running a piece of the program: a value, a thrown exception,
or undefined behaviour (which no `catch` intercepts). -/
inductive Outcome (β : Type) where
  | ok (value : β)
  | thrown (e : Exc)
  | undefined
  deriving DecidableEq

/-- The value carried by an outcome, `d` when it carries none. -/
def Outcome.getD {β : Type} (o : Outcome β) (d : β) : β :=
  match o with
  | .ok v => v
  | _ => d

/-- The value of `std::numeric_limits<size_t>::max()`. -/
def SIZE_MAX : Nat := 2 ^ 64 - 1

/-- The `double` operations used by the program. -/
structure Scalar (α : Type) where
  zero : α
  mul : α → α → α
  add : α → α → α
  div : α → α → α
  ne : α → α → Bool
  lt : α → α → Bool

/-- Exact arithmetic on the rationals. -/
def ratOps : Scalar ℚ where
  zero := 0
  mul := fun a b => a * b
  add := fun a b => a + b
  div := fun a b => a / b
  ne := fun a b => decide (a ≠ b)
  lt := fun a b => decide (a < b)

/-- The largest finite `double`, `(2 - 2^(-52)) * 2^1023`. -/
def DBL_MAX : ℚ := (2 ^ 53 - 1) * 2 ^ 971

/-- The smallest magnitude that rounds to an infinity: `DBL_MAX` plus half the
distance `2^971` between `DBL_MAX` and `2^1024`. -/
def DBL_OVERFLOW : ℚ := 2 ^ 1024 - 2 ^ 970

/-- The values of a `double`: the finite ones as rationals, the two infinities
and not-a-number.  The sign of a zero is not kept: `!=` and `<` do not see it,
and the program divides only by elements it has tested to be non-zero. -/
inductive Ext where
  | fin (q : ℚ)
  | posInf
  | negInf
  | nan
  deriving DecidableEq

namespace Ext

/-- The power `2^e` for an integer exponent. -/
def twoPow (e : ℤ) : ℚ :=
  if 0 ≤ e then ((2 ^ e.toNat : ℕ) : ℚ) else 1 / ((2 ^ (-e).toNat : ℕ) : ℚ)

/-- Halving `n` until it is below `2`, at most `fuel` times: the number of
halvings. -/
def bitsAux : Nat → Nat → Nat
  | 0, _ => 0
  | fuel + 1, n => if 2 ≤ n then bitsAux fuel (n / 2) + 1 else 0

/-- The exponent `k` with `2^k ≤ n < 2^(k+1)`, for a positive `n`. -/
def log2 (n : Nat) : Nat := bitsAux n n

/-- The exponent `e` with `2^e ≤ q < 2^(e+1)`, for a positive `q`. -/
def binade (q : ℚ) : ℤ :=
  let e0 : ℤ := (log2 q.num.natAbs : ℤ) - (log2 q.den : ℤ)
  if twoPow e0 ≤ q then e0 else e0 - 1

/-- The nearest integer, the even one of the two when they are equally near. -/
def roundEven (q : ℚ) : ℤ :=
  let f := Rat.floor q
  let r := q - f
  if r < 1 / 2 then f else if 1 / 2 < r then f + 1 else if f % 2 = 0 then f else f + 1

/-- The `double` that an exact rational result is rounded to (round to nearest,
ties to even): an infinity from `DBL_OVERFLOW` on, otherwise the nearest multiple
of the spacing `2^(e-52)` of the doubles in the binade `e` of `q`, the binades
below `-1022` sharing the spacing `2^(-1074)` of the subnormal numbers. -/
def ofRat (q : ℚ) : Ext :=
  if DBL_OVERFLOW ≤ q then posInf
  else if q ≤ -DBL_OVERFLOW then negInf
  else if q = 0 then fin 0
  else
    let e := max (binade (if q < 0 then -q else q)) (-1022)
    let ulp := twoPow (e - 52)
    fin (roundEven (q / ulp) * ulp)

/-- The value `pos` for a positive `q`, `neg` for a negative one, not-a-number
for zero. -/
def bySign (q : ℚ) (pos neg : Ext) : Ext :=
  if 0 < q then pos else if q < 0 then neg else nan

/-- Multiplication. -/
def mul : Ext → Ext → Ext
  | fin a, fin b => ofRat (a * b)
  | fin a, posInf => bySign a posInf negInf
  | fin a, negInf => bySign a negInf posInf
  | posInf, fin b => bySign b posInf negInf
  | negInf, fin b => bySign b negInf posInf
  | posInf, posInf => posInf
  | negInf, negInf => posInf
  | posInf, negInf => negInf
  | negInf, posInf => negInf
  | nan, _ => nan
  | _, nan => nan

/-- Addition. -/
def add : Ext → Ext → Ext
  | fin a, fin b => ofRat (a + b)
  | fin _, posInf => posInf
  | fin _, negInf => negInf
  | posInf, fin _ => posInf
  | negInf, fin _ => negInf
  | posInf, posInf => posInf
  | negInf, negInf => negInf
  | posInf, negInf => nan
  | negInf, posInf => nan
  | nan, _ => nan
  | _, nan => nan

/-- Division. -/
def div : Ext → Ext → Ext
  | fin a, fin b => if b = 0 then bySign a posInf negInf else ofRat (a / b)
  | fin _, posInf => fin 0
  | fin _, negInf => fin 0
  | posInf, fin b => if b < 0 then negInf else posInf
  | negInf, fin b => if b < 0 then posInf else negInf
  | posInf, posInf => nan
  | negInf, negInf => nan
  | posInf, negInf => nan
  | negInf, posInf => nan
  | nan, _ => nan
  | _, nan => nan

/-- The comparison `!=`: not-a-number differs from everything. -/
def ne : Ext → Ext → Bool
  | nan, _ => true
  | _, nan => true
  | x, y => decide (x ≠ y)

/-- The comparison `<`: false as soon as one side is not-a-number. -/
def lt : Ext → Ext → Bool
  | fin a, fin b => decide (a < b)
  | fin _, posInf => true
  | negInf, fin _ => true
  | negInf, posInf => true
  | _, _ => false

end Ext

/-- The arithmetic of `double`: each operation gives the exact result rounded by
`Ext.ofRat`. -/
def extOps : Scalar Ext where
  zero := .fin 0
  mul := Ext.mul
  add := Ext.add
  div := Ext.div
  ne := Ext.ne
  lt := Ext.lt

/-- `sizeToString`: the decimal rendering of a size. -/
def sizeToString (value : Nat) : String := toString value

/-- The exception of both constructors for a zero dimension (lines 16, 23). -/
def invalidDimensions : Exc :=
  ⟨.invalid_argument, "Размеры матрицы должны быть положительными числами"⟩

/-- The exception of the grid constructor for a grid of the wrong shape (line 26). -/
def shapeMismatch : Exc :=
  ⟨.invalid_argument, "Несоответствие размеров при инициализации"⟩

/-- The exception of `operator()` for an index outside the matrix (lines 41, 48). -/
def indexOutOfRange : Exc :=
  ⟨.out_of_range, "Индекс выходит за границы матрицы"⟩

/-- The exception of `multiply` for incompatible dimensions (lines 77-82). -/
def dimensionMismatch (aCols bRows : Nat) : Exc :=
  ⟨.invalid_argument,
    "Количество столбцов первой матрицы (" ++ sizeToString aCols ++
    ") должно равняться количеству строк второй матрицы (" ++ sizeToString bRows ++ ")"⟩

/-- The exception of `multiply` when the result size would overflow (line 86). -/
def resultSizeOverflow : Exc :=
  ⟨.overflow_error, "Возможное переполнение при создании результирующей матрицы"⟩

/-- The exception of the per-term guard (line 103). -/
def mulOverflow : Exc :=
  ⟨.overflow_error, "Переполнение при умножении элементов"⟩

/-- The exception of the per-accumulation guard (line 108). -/
def sumOverflow : Exc :=
  ⟨.overflow_error, "Переполнение при сложении элементов"⟩

/-- The text put in front of the cause by the `catch` of `multiply` (line 117). -/
def multiplyFailedHead : String := "Ошибка при умножении матриц: "

/-- The exception built by the `catch` block of `multiply` (lines 116-120). -/
def multiplicationFailed (cause : Exc) : Exc :=
  ⟨.runtime_error, multiplyFailedHead ++ cause.what⟩

/-! ## The class `Matrix` -/

/-- The three data members of `class Matrix`. -/
structure Matrix (α : Type) where
  data : List (List α)
  rows : Nat
  cols : Nat
  deriving DecidableEq

/-- `v[i]` on a `std::vector`: undefined behaviour outside the vector. -/
def vecAt {β : Type} (v : List β) (i : Nat) : Outcome β :=
  match v[i]? with
  | some x => .ok x
  | none => .undefined

namespace Matrix

variable {α : Type}

/-- `Matrix(size_t rows, size_t cols)` (lines 14-19). -/
def new (ops : Scalar α) (rows cols : Nat) : Outcome (Matrix α) :=
  if rows = 0 ∨ cols = 0 then
    .thrown invalidDimensions
  else
    .ok ⟨List.replicate rows (List.replicate cols ops.zero), rows, cols⟩

/-- `Matrix(size_t rows, size_t cols, const vector<vector<double>>& values)`
(lines 21-29). -/
def fromValues (rows cols : Nat) (values : List (List α)) : Outcome (Matrix α) :=
  if rows = 0 ∨ cols = 0 then
    .thrown invalidDimensions
  else if values.length ≠ rows then
    .thrown shapeMismatch
  else if rows > 0 then
    match vecAt values 0 with
    | .ok row0 =>
      if row0.length ≠ cols then .thrown shapeMismatch else .ok ⟨values, rows, cols⟩
    | .thrown e => .thrown e
    | .undefined => .undefined
  else
    .ok ⟨values, rows, cols⟩

/-- `getRows()` (line 31). -/
def getRows (M : Matrix α) : Nat := M.rows

/-- `getCols()` (line 35). -/
def getCols (M : Matrix α) : Nat := M.cols

/-- `operator()(i, j) const` (lines 46-51): the element read. -/
def get (M : Matrix α) (i j : Nat) : Outcome α :=
  if i ≥ M.rows ∨ j ≥ M.cols then
    .thrown indexOutOfRange
  else
    match vecAt M.data i with
    | .ok row => vecAt row j
    | .thrown e => .thrown e
    | .undefined => .undefined

/-- `operator()(i, j) = value` (lines 39-44 followed by the assignment through
the returned reference): the matrix after the write. -/
def set (M : Matrix α) (i j : Nat) (value : α) : Outcome (Matrix α) :=
  if i ≥ M.rows ∨ j ≥ M.cols then
    .thrown indexOutOfRange
  else
    match vecAt M.data i with
    | .ok row =>
      match vecAt row j with
      | .ok _ => .ok { M with data := M.data.set i (row.set j value) }
      | .thrown e => .thrown e
      | .undefined => .undefined
    | .thrown e => .thrown e
    | .undefined => .undefined

/-- The per-term guard of line 101-102. -/
def termGuard (ops : Scalar α) (a b product : α) : Bool :=
  (ops.ne a ops.zero && ops.ne (ops.div product a) b) ||
  (ops.ne b ops.zero && ops.ne (ops.div product b) a)

/-- The per-accumulation guard of line 107. -/
def sumGuard (ops : Scalar α) (sum product new_sum : α) : Bool :=
  (ops.lt ops.zero product && ops.lt new_sum sum) ||
  (ops.lt product ops.zero && ops.lt sum new_sum)

/-- One pass through the body of the `k` loop (lines 100-110) once `A(i,k)`
and `B(k,j)` have been read: the new running sum, or the exception of the guard
that fires. -/
def accumulate (ops : Scalar α) (sum a b : α) : Outcome α :=
  let product := ops.mul a b
  if termGuard ops a b product then
    .thrown mulOverflow
  else
    let new_sum := ops.add sum product
    if sumGuard ops sum product new_sum then
      .thrown sumOverflow
    else
      .ok new_sum

/-- The `k` loop (lines 98-111) for the cell `(i, j)`: the running sum after the
iterations `0, …, k-1`, starting from `0.0`. -/
def sumLoop (ops : Scalar α) (A B : Matrix α) (i j : Nat) : Nat → Outcome α
  | 0 => .ok ops.zero
  | k + 1 =>
    match sumLoop ops A B i j k with
    | .ok sum =>
      match A.get i k with
      | .ok a =>
        match B.get k j with
        | .ok b => accumulate ops sum a b
        | .thrown e => .thrown e
        | .undefined => .undefined
      | .thrown e => .thrown e
      | .undefined => .undefined
    | .thrown e => .thrown e
    | .undefined => .undefined

/-- The `j` loop (lines 97-113) in row `i`: the result matrix after the
iterations `0, …, j-1`. -/
def colLoop (ops : Scalar α) (A B : Matrix α) (n i : Nat) (result : Matrix α) :
    Nat → Outcome (Matrix α)
  | 0 => .ok result
  | j + 1 =>
    match colLoop ops A B n i result j with
    | .ok r =>
      match sumLoop ops A B i j n with
      | .ok sum => r.set i j sum
      | .thrown e => .thrown e
      | .undefined => .undefined
    | .thrown e => .thrown e
    | .undefined => .undefined

/-- The `i` loop (lines 96-114): the result matrix after the iterations
`0, …, i-1`. -/
def rowLoop (ops : Scalar α) (A B : Matrix α) (n p : Nat) (result : Matrix α) :
    Nat → Outcome (Matrix α)
  | 0 => .ok result
  | i + 1 =>
    match rowLoop ops A B n p result i with
    | .ok r => colLoop ops A B n i r p
    | .thrown e => .thrown e
    | .undefined => .undefined

/-- The `try { … } catch (const std::exception& e)` of lines 95-120: every
exception leaving the block is replaced by a `runtime_error` whose message is
the fixed head followed by `e.what()`. -/
def catchBlock {β : Type} : Outcome β → Outcome β
  | .ok v => .ok v
  | .thrown e => .thrown (multiplicationFailed e)
  | .undefined => .undefined

/-- The test of line 85, for a non-zero divisor. -/
def resultSizeGuard (m p : Nat) : Bool := decide (m > SIZE_MAX / p)

/-- `Matrix::multiply` (lines 75-123). -/
def multiply (ops : Scalar α) (A B : Matrix α) : Outcome (Matrix α) :=
  if A.getCols ≠ B.getRows then
    .thrown (dimensionMismatch A.getCols B.getRows)
  else if B.getCols = 0 then
    .undefined
  else if resultSizeGuard A.getRows B.getCols then
    .thrown resultSizeOverflow
  else
    let m := A.getRows
    let n := A.getCols
    let p := B.getCols
    match Matrix.new ops m p with
    | .ok result => catchBlock (rowLoop ops A B n p result m)
    | .thrown e => .thrown e
    | .undefined => .undefined

/-- The data-model invariant: `rows` rows are stored and each has `cols`
elements. -/
def WF (M : Matrix α) : Prop :=
  M.data.length = M.rows ∧ ∀ row ∈ M.data, row.length = M.cols

/-- A matrix that a run of the program can hold: its stored elements lie at
distinct addresses and an address is a `size_t` value, so there are at most
`SIZE_MAX` of them. -/
def Storable (M : Matrix α) : Prop :=
  (M.data.map List.length).sum ≤ SIZE_MAX

/-- Whether one of the two guards fires in iteration `k` of the `k` loop of the
cell `(i, j)`: the loop has come to `k` with a running sum, both elements are
read, and the per-term or the per-accumulation test is true. -/
def guardFiresAt (ops : Scalar α) (A B : Matrix α) (i j k : Nat) : Bool :=
  match sumLoop ops A B i j k, A.get i k, B.get k j with
  | .ok sum, .ok a, .ok b =>
    termGuard ops a b (ops.mul a b) ||
      sumGuard ops sum (ops.mul a b) (ops.add sum (ops.mul a b))
  | _, _, _ => false

/-- The two exceptions thrown inside the accumulation loop. -/
def IsLoopCause (e : Exc) : Prop := e = mulOverflow ∨ e = sumOverflow

/-- The matrices that the public operations can produce: the successful results
of the two constructors, of an element assignment and of `multiply`. -/
inductive Obtainable (ops : Scalar α) : Matrix α → Prop where
  | ctor (rows cols : Nat) (M : Matrix α) :
      Matrix.new ops rows cols = .ok M → Obtainable ops M
  | ctorValues (rows cols : Nat) (values : List (List α)) (M : Matrix α) :
      Matrix.fromValues rows cols values = .ok M → Obtainable ops M
  | assign (M M2 : Matrix α) (i j : Nat) (v : α) :
      Obtainable ops M → M.set i j v = .ok M2 → Obtainable ops M2
  | product (A B C : Matrix α) :
      Obtainable ops A → Obtainable ops B → multiply ops A B = .ok C → Obtainable ops C

end Matrix

/-- The grid of the matrix `A` of `demonstrateExample` (lines 180-186). -/
def valuesA : List (List ℚ) := [[1, 2, 3], [4, 5, 6]]

/-- The grid of the matrix `B` of `demonstrateExample` (lines 188-196). -/
def valuesB : List (List ℚ) := [[7, 8], [9, 10], [11, 12]]

/-- The matrix `A` of `demonstrateExample` (line 199). -/
def exampleA : Matrix ℚ := ⟨valuesA, 2, 3⟩

/-- The matrix `B` of `demonstrateExample` (line 200). -/
def exampleB : Matrix ℚ := ⟨valuesB, 3, 2⟩

/-- The product expected of `demonstrateExample`. -/
def exampleC : Matrix ℚ := ⟨[[58, 64], [139, 154]], 2, 2⟩

/-- The `n × n` identity matrix: `1` on the diagonal, `0` elsewhere. -/
def identity (n : Nat) : Matrix ℚ :=
  ⟨(List.range n).map (fun i => (List.range n).map (fun j => if i = j then 1 else 0)), n, n⟩

/-- A `2 × 2` matrix. -/
def square2x2 : Matrix ℚ := ⟨[[1, 2], [3, 4]], 2, 2⟩

/-- The `3 × 3` matrix of zeros, as `Matrix(3, 3)` builds it. -/
def zero3x3 : Matrix ℚ := ⟨List.replicate 3 (List.replicate 3 0), 3, 3⟩

/-- A `2^32 × 2^32` matrix of zeros. -/
def hugeZero : Matrix ℚ :=
  ⟨List.replicate (2 ^ 32) (List.replicate (2 ^ 32) 0), 2 ^ 32, 2 ^ 32⟩

/-- A `1 × 1` matrix holding `1e200`, the `double` nearest to `10^200`. -/
def large1x1 : Matrix Ext := ⟨[[Ext.ofRat (10 ^ 200)]], 1, 1⟩

/-- Exact arithmetic on a linearly ordered field. -/
def fieldOps (K : Type) [LinearOrderedField K] : Scalar K where
  zero := 0
  mul := fun a b => a * b
  add := fun a b => a + b
  div := fun a b => a / b
  ne := fun a b => decide (a ≠ b)
  lt := fun a b => decide (a < b)

/-- The statement `M(i, j) = value;` as a step on the matrix held by the caller:
the matrix afterwards and whether the statement completed.  `operator()` throws
before it hands out the reference (lines 40-42), so nothing is written then. -/
def Matrix.assign {α : Type} (M : Matrix α) (i j : Nat) (value : α) :
    Matrix α × Outcome Unit :=
  match M.set i j value with
  | .ok M2 => (M2, .ok ())
  | .thrown e => (M, .thrown e)
  | .undefined => (M, .undefined)

/-- The exception of one pass through the body of the `k` loop in which a guard
fires: the per-term test comes first (lines 101-104), the per-accumulation test
second (lines 107-109). -/
def Matrix.causeOf {α : Type} (ops : Scalar α) (a b : α) : Exc :=
  if Matrix.termGuard ops a b (ops.mul a b) then mulOverflow else sumOverflow

/-- The order in which the three nested loops visit the triples `(i, j, k)`:
`i` outermost, then `j`, then `k`. -/
def visitedBefore (i2 j2 k2 i j k : Nat) : Prop :=
  i2 < i ∨ (i2 = i ∧ j2 < j) ∨ (i2 = i ∧ j2 = j ∧ k2 < k)

/-- The product of the example matrices in the reversed order, `B * A`. -/
def exampleBA : Matrix ℚ := ⟨[[39, 54, 69], [49, 68, 87], [59, 82, 105]], 3, 3⟩

/-- A `1 × 1` matrix holding the largest finite `double`. -/
def max1x1 : Matrix Ext := ⟨[[.fin DBL_MAX]], 1, 1⟩

/-- A `1 × 2` matrix whose second element is `1e200`. -/
def firstOperand : Matrix Ext := ⟨[[.fin 1, Ext.ofRat (10 ^ 200)]], 1, 2⟩

/-- A `2 × 2` matrix whose last element is `1e200`. -/
def secondOperand : Matrix Ext :=
  ⟨[[.fin 1, .fin 1], [.fin 1, Ext.ofRat (10 ^ 200)]], 2, 2⟩

end MatrixMultiply

namespace MatrixMultiply

open Matrix

variable {α : Type}

/-! ## Vectors, constructors and element access -/

theorem vecAt_ne_thrown {β : Type} (v : List β) (i : Nat) (e : Exc) :
    vecAt v i ≠ .thrown e := by
  unfold vecAt
  cases v[i]? <;> simp

/-- C5: `Matrix(rows, cols)` fails with the zero-dimension `invalid_argument`
exactly when `rows = 0` or `cols = 0` and returns a matrix exactly otherwise; the
matrix returned reports `getRows() = rows` and `getCols() = cols`, and every
element at `(i, j)` with `i < rows`, `j < cols` reads as `0.0`. -/
theorem new_spec (ops : Scalar α) (rows cols : Nat) :
    (Matrix.new ops rows cols = .thrown invalidDimensions ↔ rows = 0 ∨ cols = 0) ∧
    ((∃ M, Matrix.new ops rows cols = .ok M) ↔ ¬ (rows = 0 ∨ cols = 0)) ∧
    (∀ M, Matrix.new ops rows cols = .ok M →
      M.getRows = rows ∧ M.getCols = cols ∧
      ∀ i j, i < rows → j < cols → M.get i j = .ok ops.zero) := by
  by_cases h : rows = 0 ∨ cols = 0
  · simp [Matrix.new, h]
  · simp only [Matrix.new, h, if_false]
    refine ⟨by simp, by simp, ?_⟩
    intro M hM
    cases hM
    refine ⟨rfl, rfl, ?_⟩
    intro i j hi hj
    simp [Matrix.get, vecAt, hi, hj, List.getElem?_replicate]

theorem new_spec_witness :
    (∃ M, Matrix.new ratOps 5 100 = .ok M) ∧
    Matrix.new ratOps 0 5 = .thrown invalidDimensions ∧
    Matrix.new ratOps 5 0 = .thrown invalidDimensions :=
  ⟨(new_spec ratOps 5 100).2.1.mpr (by decide),
    (new_spec ratOps 0 5).1.mpr (Or.inl rfl),
    (new_spec ratOps 5 0).1.mpr (Or.inr rfl)⟩

theorem get_eq_ok_iff (M : Matrix α) (i j : Nat) (x : α) :
    M.get i j = .ok x ↔
      i < M.rows ∧ j < M.cols ∧ ∃ row, M.data[i]? = some row ∧ row[j]? = some x := by
  by_cases h : i ≥ M.rows ∨ j ≥ M.cols
  · simp only [Matrix.get, h, if_true]
    constructor
    · intro h2; cases h2
    · rintro ⟨h1, h2, _⟩; omega
  · have h1 : i < M.rows := by omega
    have h2 : j < M.cols := by omega
    simp only [Matrix.get, h, if_false, h1, h2, true_and]
    cases h3 : M.data[i]? with
    | none => simp [vecAt, h3]
    | some row =>
      cases h4 : row[j]? with
      | none => simp [vecAt, h3, h4]
      | some y => simp [vecAt, h3, h4]

theorem set_eq_ok (M M2 : Matrix α) (i j : Nat) (v : α) (h : M.set i j v = .ok M2) :
    i < M.rows ∧ j < M.cols ∧
      ∃ row x, M.data[i]? = some row ∧ row[j]? = some x ∧
        M2 = { M with data := M.data.set i (row.set j v) } := by
  by_cases h0 : i ≥ M.rows ∨ j ≥ M.cols
  · simp [Matrix.set, h0] at h
  · have h1 : i < M.rows := by omega
    have h2 : j < M.cols := by omega
    refine ⟨h1, h2, ?_⟩
    simp only [Matrix.set, h0, if_false] at h
    cases h3 : M.data[i]? with
    | none => simp [vecAt, h3] at h
    | some row =>
      cases h4 : row[j]? with
      | none => simp [vecAt, h3, h4] at h
      | some y =>
        simp [vecAt, h3, h4] at h
        exact ⟨row, y, rfl, h4, h.symm⟩

/-- Writing an element keeps the dimensions, stores the value at the written
place and leaves every other place as it was. -/
theorem set_get (M M2 : Matrix α) (i j : Nat) (v : α) (h : M.set i j v = .ok M2) :
    M2.rows = M.rows ∧ M2.cols = M.cols ∧ M2.get i j = .ok v ∧
      ∀ i2 j2, (i2 ≠ i ∨ j2 ≠ j) → M2.get i2 j2 = M.get i2 j2 := by
  obtain ⟨h1, h2, row, x, h3, h4, rfl⟩ := set_eq_ok M M2 i j v h
  have hi : i < M.data.length := by
    by_contra hc
    rw [List.getElem?_eq_none (by omega)] at h3
    cases h3
  have hj : j < row.length := by
    by_contra hc
    rw [List.getElem?_eq_none (by omega)] at h4
    cases h4
  refine ⟨rfl, rfl, ?_, ?_⟩
  · rw [get_eq_ok_iff]
    refine ⟨h1, h2, row.set j v, ?_, ?_⟩
    · simp [List.getElem?_set, hi]
    · simp [List.getElem?_set, hj]
  · intro i2 j2 hne
    by_cases hb : i2 ≥ M.rows ∨ j2 ≥ M.cols
    · simp [Matrix.get, hb]
    · simp only [Matrix.get, hb, if_false]
      by_cases hi2 : i2 = i
      · subst hi2
        have hj2 : j2 ≠ j := by
          rcases hne with hne | hne
          · exact absurd rfl hne
          · exact hne
        have e1 : vecAt (M.data.set i2 (row.set j v)) i2 = .ok (row.set j v) := by
          simp [vecAt, List.getElem?_set, hi]
        have e2 : vecAt M.data i2 = .ok row := by
          simp [vecAt, h3]
        rw [e1, e2]
        simp [vecAt, List.getElem?_set, Ne.symm hj2]
      · have e1 : vecAt (M.data.set i (row.set j v)) i2 = vecAt M.data i2 := by
          simp [vecAt, List.getElem?_set, Ne.symm hi2]
        rw [e1]

/-- The two `invalid_argument` exceptions of the constructors differ in their
message. -/
theorem invalidDimensions_ne_shapeMismatch : invalidDimensions ≠ shapeMismatch := by
  decide

/-- C7: `Matrix(rows, cols, values)` fails with the zero-dimension
`invalid_argument` when `rows = 0` or `cols = 0`; otherwise it fails with the
shape-mismatch `invalid_argument` exactly when `values` does not have `rows` rows
or its first row does not have `cols` entries; otherwise it returns the matrix
whose stored elements are `values`. -/
theorem fromValues_spec (rows cols : Nat) (values : List (List α)) :
    (rows = 0 ∨ cols = 0 →
      Matrix.fromValues rows cols values = .thrown invalidDimensions ∧
      Matrix.fromValues rows cols values ≠ .thrown shapeMismatch) ∧
    (¬ (rows = 0 ∨ cols = 0) →
      (Matrix.fromValues rows cols values = .thrown shapeMismatch ↔
        (values.length ≠ rows ∨ ∃ row0, values[0]? = some row0 ∧ row0.length ≠ cols))) ∧
    (¬ (rows = 0 ∨ cols = 0) →
      ¬ (values.length ≠ rows ∨ ∃ row0, values[0]? = some row0 ∧ row0.length ≠ cols) →
      Matrix.fromValues rows cols values = .ok ⟨values, rows, cols⟩) := by
  refine ⟨fun h => ⟨by simp [Matrix.fromValues, h], ?_⟩, fun h => ?_, fun h h2 => ?_⟩
  · simp only [Matrix.fromValues, h, if_true]
    intro hc
    exact invalidDimensions_ne_shapeMismatch (Outcome.thrown.inj hc)
  · have hr : 0 < rows := by omega
    by_cases hl : values.length ≠ rows
    · simp [Matrix.fromValues, h, hl]
    · have hl2 : values.length = rows := by omega
      cases values with
      | nil => simp at hl2; omega
      | cons row0 rest =>
        by_cases hc : row0.length = cols
        · simp [Matrix.fromValues, h, hl, hr, vecAt, hc]
        · simp [Matrix.fromValues, h, hl, hr, vecAt, hc]
  · have hr : 0 < rows := by omega
    have hl2 : values.length = rows := by omega
    cases values with
    | nil => simp at hl2; omega
    | cons row0 rest =>
      have hc : row0.length = cols := by
        by_contra hc
        exact h2 (Or.inr ⟨row0, by simp, hc⟩)
      simp [Matrix.fromValues, h, hl2, hr, vecAt, hc]

theorem fromValues_spec_witness :
    Matrix.fromValues 2 3 valuesB = .thrown shapeMismatch :=
  ((fromValues_spec 2 3 valuesB).2.1 (by decide)).mpr (Or.inl (by decide))

/-- C6 fails on the code: the grid constructor accepts the ragged grid
`[[1, 2], [3]]` as a `2 × 2` matrix, whose second stored row has one element, so
that reading `(1, 1)` indexes the row vector outside its bounds. -/
theorem fromValues_ragged :
    Matrix.fromValues 2 2 [[1, 2], [(3 : ℚ)]] = .ok ⟨[[1, 2], [3]], 2, 2⟩ ∧
    ¬ (∀ row ∈ [[1, 2], [(3 : ℚ)]], row.length = 2) ∧
    (⟨[[1, 2], [3]], 2, 2⟩ : Matrix ℚ).get 1 1 = .undefined := by
  refine ⟨by decide, by decide, by decide⟩

/-- C9: `M(i, j)`, read or written, fails with the `out_of_range` exception
exactly when `i ≥ getRows()` or `j ≥ getCols()`; in a matrix that stores `rows`
rows of `cols` elements each, an access within these bounds reads the element
stored at row `i`, column `j`, and a write replaces that element. -/
theorem get_spec (M : Matrix α) (i j : Nat) :
    (M.get i j = .thrown indexOutOfRange ↔ (i ≥ M.getRows ∨ j ≥ M.getCols)) ∧
    (∀ v, M.set i j v = .thrown indexOutOfRange ↔ (i ≥ M.getRows ∨ j ≥ M.getCols)) ∧
    (M.WF → i < M.getRows → j < M.getCols →
      ∃ row x, M.data[i]? = some row ∧ row[j]? = some x ∧ M.get i j = .ok x ∧
        ∀ v, M.set i j v = .ok { M with data := M.data.set i (row.set j v) }) := by
  refine ⟨?_, ?_, ?_⟩
  · by_cases h : i ≥ M.rows ∨ j ≥ M.cols
    · simp [Matrix.get, Matrix.getRows, Matrix.getCols, h]
    · simp only [Matrix.get, Matrix.getRows, Matrix.getCols, h, if_false, iff_false]
      cases h1 : vecAt M.data i with
      | ok row =>
        cases h2 : vecAt row j with
        | ok x => simp [h2]
        | thrown e => exact absurd h2 (vecAt_ne_thrown _ _ _)
        | undefined => simp [h2]
      | thrown e => exact absurd h1 (vecAt_ne_thrown _ _ _)
      | undefined => simp
  · intro v
    by_cases h : i ≥ M.rows ∨ j ≥ M.cols
    · simp [Matrix.set, Matrix.getRows, Matrix.getCols, h]
    · simp only [Matrix.set, Matrix.getRows, Matrix.getCols, h, if_false, iff_false]
      cases h1 : vecAt M.data i with
      | ok row =>
        cases h2 : vecAt row j with
        | ok x => simp [h2]
        | thrown e => exact absurd h2 (vecAt_ne_thrown _ _ _)
        | undefined => simp [h2]
      | thrown e => exact absurd h1 (vecAt_ne_thrown _ _ _)
      | undefined => simp
  · intro hwf hi hj
    obtain ⟨hlen, hrow⟩ := hwf
    simp only [Matrix.getRows, Matrix.getCols] at hi hj
    have hi2 : i < M.data.length := by omega
    have hmem : M.data[i] ∈ M.data := List.getElem_mem _
    have hj2 : j < (M.data[i]).length := by rw [hrow _ hmem]; exact hj
    refine ⟨M.data[i], (M.data[i])[j], by simp [hi2], by simp [hj2], ?_, ?_⟩
    · simp [Matrix.get, vecAt, hi, hj, hi2, hj2]
    · intro v
      simp [Matrix.set, vecAt, hi, hj, hi2, hj2]

theorem get_spec_witness :
    Matrix.new ratOps 3 3 = .ok zero3x3 ∧
    zero3x3.get 3 0 = .thrown indexOutOfRange ∧
    zero3x3.get 0 3 = .thrown indexOutOfRange ∧
    zero3x3.get 3 3 = .thrown indexOutOfRange ∧
    ∃ x, zero3x3.get 2 2 = .ok x :=
  ⟨rfl,
    (get_spec zero3x3 3 0).1.mpr (Or.inl (Nat.le_refl 3)),
    (get_spec zero3x3 0 3).1.mpr (Or.inr (Nat.le_refl 3)),
    (get_spec zero3x3 3 3).1.mpr (Or.inl (Nat.le_refl 3)),
    match (get_spec zero3x3 2 2).2.2 (by simp [Matrix.WF, zero3x3]) (by decide) (by decide) with
    | ⟨_, x, _, _, h, _⟩ => ⟨x, h⟩⟩

/-! ## The checks of `multiply` before the loop -/

theorem dimensionMismatch_ne_invalidDimensions (c r : Nat) :
    dimensionMismatch c r ≠ invalidDimensions := by
  intro h
  have h2 := congrArg (fun e => e.what.data.head?) h
  simp [dimensionMismatch, invalidDimensions, String.data_append] at h2

theorem catchBlock_cls {β : Type} (o : Outcome β) (e : Exc) (h : catchBlock o = .thrown e) :
    e.cls = .runtime_error := by
  cases o with
  | ok v => simp [catchBlock] at h
  | thrown e2 => simp [catchBlock] at h; subst h; rfl
  | undefined => simp [catchBlock] at h

theorem resultSizeGuard_iff (m p : Nat) (hp : p ≠ 0) :
    resultSizeGuard m p = true ↔ m * p > SIZE_MAX := by
  have hp2 : 0 < p := Nat.pos_of_ne_zero hp
  simp only [resultSizeGuard, decide_eq_true_eq, gt_iff_lt]
  exact Nat.div_lt_iff_lt_mul hp2

/-- The outcome of `multiply` once the dimensions are compatible, the divisor of
the size test is not zero and the size test passes. -/
theorem multiply_of_guards (ops : Scalar α) (A B : Matrix α) (h1 : A.cols = B.rows)
    (h2 : B.cols ≠ 0) (h3 : resultSizeGuard A.rows B.cols = false) :
    multiply ops A B =
      match Matrix.new ops A.rows B.cols with
      | .ok result => catchBlock (rowLoop ops A B A.cols B.cols result A.rows)
      | .thrown e => .thrown e
      | .undefined => .undefined := by
  simp [multiply, getRows, getCols, h1, h2, h3]

theorem multiply_thrown_cases (ops : Scalar α) (A B : Matrix α) (e : Exc)
    (h : multiply ops A B = .thrown e) :
    (A.cols ≠ B.rows ∧ e = dimensionMismatch A.cols B.rows) ∨
    (A.cols = B.rows ∧ B.cols ≠ 0 ∧ resultSizeGuard A.rows B.cols = true ∧
      e = resultSizeOverflow) ∨
    (A.cols = B.rows ∧ B.cols ≠ 0 ∧ resultSizeGuard A.rows B.cols = false ∧
      A.rows = 0 ∧ e = invalidDimensions) ∨
    (A.cols = B.rows ∧ B.cols ≠ 0 ∧ resultSizeGuard A.rows B.cols = false ∧
      e.cls = .runtime_error) := by
  by_cases h1 : A.cols = B.rows
  · by_cases h2 : B.cols = 0
    · simp [multiply, getRows, getCols, h1, h2] at h
    · cases h3 : resultSizeGuard A.rows B.cols with
      | true =>
        simp [multiply, getRows, getCols, h1, h2, h3] at h
        exact Or.inr (Or.inl ⟨h1, h2, rfl, h.symm⟩)
      | false =>
        rw [multiply_of_guards ops A B h1 h2 h3] at h
        by_cases h4 : A.rows = 0
        · simp [Matrix.new, h4] at h
          exact Or.inr (Or.inr (Or.inl ⟨h1, h2, rfl, h4, h.symm⟩))
        · simp only [Matrix.new, h4, h2, or_self, if_false] at h
          exact Or.inr (Or.inr (Or.inr ⟨h1, h2, rfl, catchBlock_cls _ _ h⟩))
  · simp [multiply, getRows, getCols, h1] at h
    exact Or.inl ⟨h1, h.symm⟩

/-- C2: `multiply(A, B)` fails with the dimension-mismatch `invalid_argument`
exactly when `A.getCols() ≠ B.getRows()`; in that case the exception carries both
dimensions, it is the outcome whatever else holds of `A` and `B`, and no matrix is
returned. -/
theorem multiply_dimensionMismatch_iff (ops : Scalar α) (A B : Matrix α) :
    ((∃ c r, multiply ops A B = .thrown (dimensionMismatch c r)) ↔ A.getCols ≠ B.getRows) ∧
    (A.getCols ≠ B.getRows →
      multiply ops A B = .thrown (dimensionMismatch A.getCols B.getRows) ∧
      ∀ C, multiply ops A B ≠ .ok C) := by
  have hfwd : A.getCols ≠ B.getRows →
      multiply ops A B = .thrown (dimensionMismatch A.getCols B.getRows) := by
    intro h
    simp [multiply, h]
  refine ⟨⟨?_, fun h => ⟨_, _, hfwd h⟩⟩, fun h => ⟨hfwd h, ?_⟩⟩
  · rintro ⟨c, r, h⟩
    rcases multiply_thrown_cases ops A B _ h with h1 | h1 | h1 | h1
    · exact h1.1
    · have := congrArg Exc.cls h1.2.2.2
      simp [dimensionMismatch, resultSizeOverflow] at this
    · exact absurd h1.2.2.2.2 (dimensionMismatch_ne_invalidDimensions c r)
    · have := h1.2.2.2
      simp [dimensionMismatch] at this
  · intro C hC
    rw [hfwd h] at hC
    cases hC

theorem multiply_dimensionMismatch_witness :
    multiply ratOps exampleA square2x2 = .thrown (dimensionMismatch 3 2) ∧
      ∀ C, multiply ratOps exampleA square2x2 ≠ .ok C :=
  (multiply_dimensionMismatch_iff ratOps exampleA square2x2).2 (by decide)

/-- C3: for `A.getCols() = B.getRows()`, `multiply(A, B)` fails with the
result-size `overflow_error` exactly when the product `A.getRows() * B.getCols()`
of natural numbers exceeds `SIZE_MAX`; for a non-zero `p` the test
`m > SIZE_MAX / p` of the code is equivalent to `m * p > SIZE_MAX`; and when it
holds no result matrix is produced. -/
theorem multiply_resultSizeOverflow_iff (ops : Scalar α) (A B : Matrix α)
    (hdim : A.getCols = B.getRows) :
    (multiply ops A B = .thrown resultSizeOverflow ↔ A.getRows * B.getCols > SIZE_MAX) ∧
    (0 < B.getCols →
      (resultSizeGuard A.getRows B.getCols = true ↔ A.getRows * B.getCols > SIZE_MAX)) ∧
    (A.getRows * B.getCols > SIZE_MAX → ∀ C, multiply ops A B ≠ .ok C) := by
  simp only [getRows, getCols] at hdim ⊢
  have hfwd : A.rows * B.cols > SIZE_MAX → multiply ops A B = .thrown resultSizeOverflow := by
    intro h
    have hp : B.cols ≠ 0 := by
      rintro h0
      rw [h0] at h
      simp at h
    have hg := (resultSizeGuard_iff A.rows B.cols hp).mpr h
    simp [multiply, getRows, getCols, hdim, hp, hg]
  refine ⟨⟨?_, hfwd⟩, fun hp => resultSizeGuard_iff _ _ (by omega), ?_⟩
  · intro h
    rcases multiply_thrown_cases ops A B _ h with h1 | h1 | h1 | h1
    · exact absurd hdim h1.1
    · exact (resultSizeGuard_iff A.rows B.cols h1.2.1).mp h1.2.2.1
    · have := congrArg Exc.cls h1.2.2.2.2
      simp [invalidDimensions, resultSizeOverflow] at this
    · have := h1.2.2.2
      simp [resultSizeOverflow] at this
  · intro h C hC
    rw [hfwd h] at hC
    cases hC

theorem multiply_resultSizeOverflow_witness :
    hugeZero.getCols = hugeZero.getRows ∧
    multiply ratOps hugeZero hugeZero = .thrown resultSizeOverflow :=
  ⟨rfl, (multiply_resultSizeOverflow_iff ratOps hugeZero hugeZero rfl).1.mpr
    (show SIZE_MAX < 2 ^ 32 * 2 ^ 32 by decide)⟩

/-! ## The accumulation loop -/

theorem accumulate_eq_ok (ops : Scalar α) (sum a b s : α)
    (h : accumulate ops sum a b = .ok s) : s = ops.add sum (ops.mul a b) := by
  unfold accumulate at h
  simp only at h
  split at h
  · cases h
  · split at h
    · cases h
    · cases h; rfl

theorem sumLoop_succ_ok (ops : Scalar α) (A B : Matrix α) (i j k : Nat) (s : α)
    (h : sumLoop ops A B i j (k + 1) = .ok s) :
    ∃ sum a b, sumLoop ops A B i j k = .ok sum ∧ A.get i k = .ok a ∧ B.get k j = .ok b ∧
      accumulate ops sum a b = .ok s := by
  simp only [sumLoop] at h
  cases h1 : sumLoop ops A B i j k with
  | ok sum =>
    cases h2 : A.get i k with
    | ok a =>
      cases h3 : B.get k j with
      | ok b =>
        simp only [h1, h2, h3] at h
        exact ⟨sum, a, b, rfl, rfl, rfl, h⟩
      | thrown e => simp [h1, h2, h3] at h
      | undefined => simp [h1, h2, h3] at h
    | thrown e => simp [h1, h2] at h
    | undefined => simp [h1, h2] at h
  | thrown e => simp [h1] at h
  | undefined => simp [h1] at h

/-- A completed `k` loop has read every `A(i,k)` and `B(k,j)` and holds their
products summed from `0.0` in ascending `k`. -/
theorem sumLoop_ok (ops : Scalar α) (A B : Matrix α) (i j : Nat) :
    ∀ (n : Nat) (s : α), sumLoop ops A B i j n = .ok s →
      (∀ k, k < n → A.get i k = .ok ((A.get i k).getD ops.zero) ∧
        B.get k j = .ok ((B.get k j).getD ops.zero)) ∧
      s = (List.range n).foldl
        (fun s k => ops.add s (ops.mul ((A.get i k).getD ops.zero) ((B.get k j).getD ops.zero)))
        ops.zero := by
  intro n
  induction n with
  | zero =>
    intro s h
    simp only [sumLoop] at h
    cases h
    exact ⟨fun k hk => absurd hk (Nat.not_lt_zero k), rfl⟩
  | succ n ih =>
    intro s h
    obtain ⟨sum, a, b, h1, h2, h3, h4⟩ := sumLoop_succ_ok ops A B i j n s h
    obtain ⟨ih1, ih2⟩ := ih sum h1
    refine ⟨?_, ?_⟩
    · intro k hk
      by_cases hkn : k = n
      · subst hkn
        simp [h2, h3, Outcome.getD]
      · exact ih1 k (by omega)
    · rw [List.range_succ, List.foldl_append, ← ih2, accumulate_eq_ok ops sum a b s h4]
      simp [h2, h3, Outcome.getD]

theorem colLoop_succ_ok (ops : Scalar α) (A B : Matrix α) (n i : Nat) (R R2 : Matrix α)
    (j : Nat) (h : colLoop ops A B n i R (j + 1) = .ok R2) :
    ∃ R1 s, colLoop ops A B n i R j = .ok R1 ∧ sumLoop ops A B i j n = .ok s ∧
      R1.set i j s = .ok R2 := by
  simp only [colLoop] at h
  cases h1 : colLoop ops A B n i R j with
  | ok R1 =>
    cases h2 : sumLoop ops A B i j n with
    | ok s =>
      simp only [h1, h2] at h
      exact ⟨R1, s, rfl, rfl, h⟩
    | thrown e => simp [h1, h2] at h
    | undefined => simp [h1, h2] at h
  | thrown e => simp [h1] at h
  | undefined => simp [h1] at h

theorem colLoop_ok (ops : Scalar α) (A B : Matrix α) (n i : Nat) (R : Matrix α) :
    ∀ (j : Nat) (R2 : Matrix α), colLoop ops A B n i R j = .ok R2 →
      R2.rows = R.rows ∧ R2.cols = R.cols ∧
      (∀ j2, j2 < j → ∃ s, sumLoop ops A B i j2 n = .ok s ∧ R2.get i j2 = .ok s) ∧
      (∀ i2 j2, (i2 ≠ i ∨ j ≤ j2) → R2.get i2 j2 = R.get i2 j2) := by
  intro j
  induction j with
  | zero =>
    intro R2 h
    simp only [colLoop] at h
    cases h
    exact ⟨rfl, rfl, fun j2 hj2 => absurd hj2 (Nat.not_lt_zero j2), fun _ _ _ => rfl⟩
  | succ j ih =>
    intro R2 h
    obtain ⟨R1, s, h1, h2, h3⟩ := colLoop_succ_ok ops A B n i R R2 j h
    obtain ⟨ihr, ihc, ihd, iho⟩ := ih R1 h1
    obtain ⟨sr, sc, sg, so⟩ := set_get R1 R2 i j s h3
    refine ⟨by rw [sr, ihr], by rw [sc, ihc], ?_, ?_⟩
    · intro j2 hj2
      by_cases hjj : j2 = j
      · subst hjj
        exact ⟨s, h2, sg⟩
      · obtain ⟨s2, hs2, hg2⟩ := ihd j2 (by omega)
        exact ⟨s2, hs2, by rw [so i j2 (Or.inr hjj), hg2]⟩
    · intro i2 j2 hne
      have hne2 : i2 ≠ i ∨ j2 ≠ j := by
        rcases hne with hne | hne
        · exact Or.inl hne
        · exact Or.inr (by omega)
      rw [so i2 j2 hne2]
      exact iho i2 j2 (by rcases hne with hne | hne; exact Or.inl hne; exact Or.inr (by omega))

theorem rowLoop_succ_ok (ops : Scalar α) (A B : Matrix α) (n p : Nat) (R R2 : Matrix α)
    (i : Nat) (h : rowLoop ops A B n p R (i + 1) = .ok R2) :
    ∃ R1, rowLoop ops A B n p R i = .ok R1 ∧ colLoop ops A B n i R1 p = .ok R2 := by
  simp only [rowLoop] at h
  cases h1 : rowLoop ops A B n p R i with
  | ok R1 =>
    simp only [h1] at h
    exact ⟨R1, rfl, h⟩
  | thrown e => simp [h1] at h
  | undefined => simp [h1] at h

theorem rowLoop_ok (ops : Scalar α) (A B : Matrix α) (n p : Nat) (R : Matrix α) :
    ∀ (i : Nat) (R2 : Matrix α), rowLoop ops A B n p R i = .ok R2 →
      R2.rows = R.rows ∧ R2.cols = R.cols ∧
      (∀ i2 j2, i2 < i → j2 < p → ∃ s, sumLoop ops A B i2 j2 n = .ok s ∧ R2.get i2 j2 = .ok s) ∧
      (∀ i2 j2, i ≤ i2 → R2.get i2 j2 = R.get i2 j2) := by
  intro i
  induction i with
  | zero =>
    intro R2 h
    simp only [rowLoop] at h
    cases h
    exact ⟨rfl, rfl, fun i2 _ hi2 => absurd hi2 (Nat.not_lt_zero i2), fun _ _ _ => rfl⟩
  | succ i ih =>
    intro R2 h
    obtain ⟨R1, h1, h2⟩ := rowLoop_succ_ok ops A B n p R R2 i h
    obtain ⟨ihr, ihc, ihd, iho⟩ := ih R1 h1
    obtain ⟨cr, cc, cd, co⟩ := colLoop_ok ops A B n i R1 p R2 h2
    refine ⟨by rw [cr, ihr], by rw [cc, ihc], ?_, ?_⟩
    · intro i2 j2 hi2 hj2
      by_cases hii : i2 = i
      · subst hii
        exact cd j2 hj2
      · obtain ⟨s, hs, hg⟩ := ihd i2 j2 (by omega) hj2
        exact ⟨s, hs, by rw [co i2 j2 (Or.inl hii), hg]⟩
    · intro i2 j2 hi2
      rw [co i2 j2 (Or.inl (by omega))]
      exact iho i2 j2 (by omega)

theorem multiply_eq_ok (ops : Scalar α) (A B C : Matrix α) (h : multiply ops A B = .ok C) :
    A.cols = B.rows ∧ B.cols ≠ 0 ∧ A.rows ≠ 0 ∧ resultSizeGuard A.rows B.cols = false ∧
      rowLoop ops A B A.cols B.cols
        ⟨List.replicate A.rows (List.replicate B.cols ops.zero), A.rows, B.cols⟩ A.rows = .ok C := by
  by_cases h1 : A.cols = B.rows
  · by_cases h2 : B.cols = 0
    · simp [multiply, getRows, getCols, h1, h2] at h
    · cases h3 : resultSizeGuard A.rows B.cols with
      | true => simp [multiply, getRows, getCols, h1, h2, h3] at h
      | false =>
        rw [multiply_of_guards ops A B h1 h2 h3] at h
        by_cases h4 : A.rows = 0
        · simp [Matrix.new, h4] at h
        · simp only [Matrix.new, h4, h2, or_self, if_false] at h
          refine ⟨h1, h2, h4, rfl, ?_⟩
          cases h5 : rowLoop ops A B A.cols B.cols
            ⟨List.replicate A.rows (List.replicate B.cols ops.zero), A.rows, B.cols⟩ A.rows with
          | ok R => rw [h5] at h; simpa [catchBlock] using h
          | thrown e => rw [h5] at h; simp [catchBlock] at h
          | undefined => rw [h5] at h; simp [catchBlock] at h
  · simp [multiply, getRows, getCols, h1] at h

/-- C1: whenever `multiply(A, B)` returns a matrix `C`, `C.getRows() = A.getRows()`
and `C.getCols() = B.getCols()`, and for all `i < A.getRows()` and
`j < B.getCols()` every `A(i,k)` and `B(k,j)` with `k < A.getCols()` is read and
`C(i,j)` is the sum of the products `A(i,k) * B(k,j)`, accumulated from `0.0` in
ascending `k`. -/
theorem multiply_correct (ops : Scalar α) (A B C : Matrix α)
    (h : multiply ops A B = .ok C) :
    C.getRows = A.getRows ∧ C.getCols = B.getCols ∧
    ∀ i j, i < A.getRows → j < B.getCols →
      ∃ a b : Nat → α,
        (∀ k, k < A.getCols → A.get i k = .ok (a k) ∧ B.get k j = .ok (b k)) ∧
        C.get i j = .ok ((List.range A.getCols).foldl
          (fun s k => ops.add s (ops.mul (a k) (b k))) ops.zero) := by
  obtain ⟨_, _, _, _, hloop⟩ := multiply_eq_ok ops A B C h
  obtain ⟨hr, hc, hd, _⟩ := rowLoop_ok ops A B A.cols B.cols _ A.rows C hloop
  refine ⟨hr, hc, ?_⟩
  intro i j hi hj
  obtain ⟨s, hs, hg⟩ := hd i j hi hj
  obtain ⟨hreads, hsum⟩ := sumLoop_ok ops A B i j A.cols s hs
  exact ⟨fun k => (A.get i k).getD ops.zero, fun k => (B.get k j).getD ops.zero, hreads,
    by rw [hg, hsum]; rfl⟩

theorem multiply_correct_witness :
    Matrix.fromValues 2 3 valuesA = .ok exampleA ∧
    Matrix.fromValues 3 2 valuesB = .ok exampleB ∧
    multiply ratOps exampleA exampleB = .ok exampleC ∧
    exampleC.data = [[58, 64], [139, 154]] ∧
    (exampleC.getRows = exampleA.getRows ∧ exampleC.getCols = exampleB.getCols ∧
      ∀ i j, i < exampleA.getRows → j < exampleB.getCols →
        ∃ a b : Nat → ℚ,
          (∀ k, k < exampleA.getCols →
            exampleA.get i k = .ok (a k) ∧ exampleB.get k j = .ok (b k)) ∧
          exampleC.get i j = .ok ((List.range exampleA.getCols).foldl
            (fun s k => ratOps.add s (ratOps.mul (a k) (b k))) ratOps.zero)) :=
  have h : multiply ratOps exampleA exampleB = .ok exampleC := by decide!
  ⟨by decide, by decide, h, rfl, multiply_correct ratOps exampleA exampleB exampleC h⟩

theorem WF_get (M : Matrix α) (hM : M.WF) (i j : Nat) (hi : i < M.rows) (hj : j < M.cols) :
    ∃ x, M.get i j = .ok x := by
  obtain ⟨hlen, hrow⟩ := hM
  have hi2 : i < M.data.length := by omega
  have hj2 : j < (M.data[i]).length := by rw [hrow _ (List.getElem_mem _)]; exact hj
  exact ⟨(M.data[i])[j], by simp [Matrix.get, vecAt, hi, hj, hi2, hj2]⟩

theorem set_WF (M M2 : Matrix α) (hM : M.WF) (i j : Nat) (v : α)
    (h : M.set i j v = .ok M2) : M2.WF := by
  obtain ⟨_, _, row, x, h3, _, rfl⟩ := set_eq_ok M M2 i j v h
  obtain ⟨hlen, hrow⟩ := hM
  refine ⟨by simpa using hlen, ?_⟩
  intro r hr
  rcases List.mem_or_eq_of_mem_set hr with hr | hr
  · exact hrow r hr
  · subst hr
    have : row ∈ M.data := List.getElem?_mem h3
    simpa using hrow row this

theorem WF_set (M : Matrix α) (hM : M.WF) (i j : Nat) (v : α) (hi : i < M.rows)
    (hj : j < M.cols) : ∃ M2, M.set i j v = .ok M2 := by
  obtain ⟨hlen, hrow⟩ := hM
  have hi2 : i < M.data.length := by omega
  have hj2 : j < (M.data[i]).length := by rw [hrow _ (List.getElem_mem _)]; exact hj
  refine ⟨{ M with data := M.data.set i ((M.data[i]).set j v) }, ?_⟩
  have hb : ¬ (i ≥ M.rows ∨ j ≥ M.cols) := by omega
  simp [Matrix.set, vecAt, hb, hi2, hj2]

theorem new_WF (ops : Scalar α) (rows cols : Nat) (M : Matrix α)
    (h : Matrix.new ops rows cols = .ok M) : M.WF ∧ M.rows = rows ∧ M.cols = cols := by
  by_cases h0 : rows = 0 ∨ cols = 0
  · simp [Matrix.new, h0] at h
  · simp only [Matrix.new, h0, if_false] at h
    cases h
    refine ⟨⟨by simp, ?_⟩, rfl, rfl⟩
    intro r hr
    rw [List.eq_of_mem_replicate hr]
    simp

theorem accumulate_cases (ops : Scalar α) (sum a b : α) :
    (accumulate ops sum a b = .ok (ops.add sum (ops.mul a b)) ∧
      (termGuard ops a b (ops.mul a b) ||
        sumGuard ops sum (ops.mul a b) (ops.add sum (ops.mul a b))) = false) ∨
    (∃ e, IsLoopCause e ∧ accumulate ops sum a b = .thrown e ∧
      (termGuard ops a b (ops.mul a b) ||
        sumGuard ops sum (ops.mul a b) (ops.add sum (ops.mul a b))) = true) := by
  cases h1 : termGuard ops a b (ops.mul a b) with
  | true =>
    exact Or.inr ⟨mulOverflow, Or.inl rfl, by simp [accumulate, h1], by simp⟩
  | false =>
    cases h2 : sumGuard ops sum (ops.mul a b) (ops.add sum (ops.mul a b)) with
    | true => exact Or.inr ⟨sumOverflow, Or.inr rfl, by simp [accumulate, h1, h2], by simp⟩
    | false => exact Or.inl ⟨by simp [accumulate, h1, h2], by simp⟩

theorem sumLoop_thrown_mono (ops : Scalar α) (A B : Matrix α) (i j k : Nat) (e : Exc)
    (h : sumLoop ops A B i j k = .thrown e) :
    ∀ d, sumLoop ops A B i j (k + d) = .thrown e := by
  intro d
  induction d with
  | zero => exact h
  | succ d ih =>
    show sumLoop ops A B i j ((k + d) + 1) = .thrown e
    simp only [sumLoop, ih]

theorem sumLoop_total (ops : Scalar α) (A B : Matrix α) (i j n : Nat)
    (hreads : ∀ k, k < n → ∃ a b, A.get i k = .ok a ∧ B.get k j = .ok b) :
    ∀ k, k ≤ n → (∃ s, sumLoop ops A B i j k = .ok s) ∨
      (∃ e, IsLoopCause e ∧ sumLoop ops A B i j k = .thrown e) := by
  intro k
  induction k with
  | zero => intro _; exact Or.inl ⟨ops.zero, rfl⟩
  | succ k ih =>
    intro hk
    rcases ih (by omega) with ⟨s, hs⟩ | ⟨e, he, hs⟩
    · obtain ⟨a, b, ha, hb⟩ := hreads k (by omega)
      rcases accumulate_cases ops s a b with ⟨hacc, _⟩ | ⟨e, he, hacc, _⟩
      · exact Or.inl ⟨ops.add s (ops.mul a b), by simp only [sumLoop, hs, ha, hb, hacc]⟩
      · exact Or.inr ⟨e, he, by simp only [sumLoop, hs, ha, hb, hacc]⟩
    · exact Or.inr ⟨e, he, sumLoop_thrown_mono ops A B i j k e hs 1⟩

theorem sumLoop_of_fire (ops : Scalar α) (A B : Matrix α) (i j k n : Nat) (hk : k < n)
    (hfire : guardFiresAt ops A B i j k = true) :
    ∃ e, IsLoopCause e ∧ sumLoop ops A B i j n = .thrown e := by
  unfold guardFiresAt at hfire
  cases hs : sumLoop ops A B i j k with
  | ok s =>
    cases ha : A.get i k with
    | ok a =>
      cases hb : B.get k j with
      | ok b =>
        simp only [hs, ha, hb] at hfire
        rcases accumulate_cases ops s a b with ⟨_, hno⟩ | ⟨e, he, hacc, _⟩
        · rw [hfire] at hno; cases hno
        · have h1 : sumLoop ops A B i j (k + 1) = .thrown e := by
            simp only [sumLoop, hs, ha, hb, hacc]
          have h2 := sumLoop_thrown_mono ops A B i j (k + 1) e h1 (n - (k + 1))
          have h3 : k + 1 + (n - (k + 1)) = n := by omega
          rw [h3] at h2
          exact ⟨e, he, h2⟩
      | thrown e => simp [hs, ha, hb] at hfire
      | undefined => simp [hs, ha, hb] at hfire
    | thrown e => simp [hs, ha] at hfire
    | undefined => simp [hs, ha] at hfire
  | thrown e => simp [hs] at hfire
  | undefined => simp [hs] at hfire

theorem colLoop_thrown_mono (ops : Scalar α) (A B : Matrix α) (n i : Nat) (R : Matrix α)
    (j : Nat) (e : Exc) (h : colLoop ops A B n i R j = .thrown e) :
    ∀ d, colLoop ops A B n i R (j + d) = .thrown e := by
  intro d
  induction d with
  | zero => exact h
  | succ d ih =>
    show colLoop ops A B n i R ((j + d) + 1) = .thrown e
    simp only [colLoop, ih]

theorem rowLoop_thrown_mono (ops : Scalar α) (A B : Matrix α) (n p : Nat) (R : Matrix α)
    (i : Nat) (e : Exc) (h : rowLoop ops A B n p R i = .thrown e) :
    ∀ d, rowLoop ops A B n p R (i + d) = .thrown e := by
  intro d
  induction d with
  | zero => exact h
  | succ d ih =>
    show rowLoop ops A B n p R ((i + d) + 1) = .thrown e
    simp only [rowLoop, ih]

/-- In a well-formed result matrix the `j` loop of row `i` either completes,
leaving a well-formed matrix of the same dimensions, or stops with the loop
exception of one of its `k` loops, as long as every `k` loop it runs ends in a
sum or in a loop exception. -/
theorem colLoop_total (ops : Scalar α) (A B : Matrix α) (n i : Nat) (R : Matrix α)
    (hR : R.WF) (hi : i < R.rows)
    (hsum : ∀ j, j < R.cols → (∃ s, sumLoop ops A B i j n = .ok s) ∨
      (∃ e, IsLoopCause e ∧ sumLoop ops A B i j n = .thrown e)) :
    ∀ j, j ≤ R.cols →
      (∃ R2, colLoop ops A B n i R j = .ok R2 ∧ R2.WF ∧ R2.rows = R.rows ∧ R2.cols = R.cols ∧
        ∀ j2, j2 < j → ∃ s, sumLoop ops A B i j2 n = .ok s) ∨
      (∃ e, IsLoopCause e ∧ colLoop ops A B n i R j = .thrown e ∧
        ∃ j2, j2 < j ∧ sumLoop ops A B i j2 n = .thrown e) := by
  intro j
  induction j with
  | zero =>
    intro _
    exact Or.inl ⟨R, rfl, hR, rfl, rfl, fun j2 hj2 => absurd hj2 (Nat.not_lt_zero j2)⟩
  | succ j ih =>
    intro hj
    rcases ih (by omega) with ⟨R1, h1, hwf, hr, hc, hprev⟩ | ⟨e, he, h1, j2, hj2, hthrow⟩
    · rcases hsum j (by omega) with ⟨s, hs⟩ | ⟨e, he, hs⟩
      · obtain ⟨R2, h2⟩ := WF_set R1 hwf i j s (by omega) (by omega)
        obtain ⟨sr, sc, _, _⟩ := set_get R1 R2 i j s h2
        refine Or.inl ⟨R2, by simp only [colLoop, h1, hs, h2],
          set_WF R1 R2 hwf i j s h2, by omega, by omega, ?_⟩
        intro j2 hj2
        by_cases hjj : j2 = j
        · subst hjj; exact ⟨s, hs⟩
        · exact hprev j2 (by omega)
      · exact Or.inr ⟨e, he, by simp only [colLoop, h1, hs], j, by omega, hs⟩
    · exact Or.inr ⟨e, he, colLoop_thrown_mono ops A B n i R j e h1 1, j2, by omega, hthrow⟩

/-- In a well-formed result matrix the `i` loop either completes, every `k` loop
having completed, or stops with the loop exception of one of its `k` loops. -/
theorem rowLoop_total (ops : Scalar α) (A B : Matrix α) (n : Nat) (R : Matrix α)
    (hR : R.WF)
    (hsum : ∀ i j, i < R.rows → j < R.cols → (∃ s, sumLoop ops A B i j n = .ok s) ∨
      (∃ e, IsLoopCause e ∧ sumLoop ops A B i j n = .thrown e)) :
    ∀ i, i ≤ R.rows →
      (∃ R2, rowLoop ops A B n R.cols R i = .ok R2 ∧ R2.WF ∧ R2.rows = R.rows ∧
        R2.cols = R.cols ∧
        ∀ i2 j2, i2 < i → j2 < R.cols → ∃ s, sumLoop ops A B i2 j2 n = .ok s) ∨
      (∃ e, IsLoopCause e ∧ rowLoop ops A B n R.cols R i = .thrown e ∧
        ∃ i2 j2, i2 < i ∧ j2 < R.cols ∧ sumLoop ops A B i2 j2 n = .thrown e) := by
  intro i
  induction i with
  | zero =>
    intro _
    exact Or.inl ⟨R, rfl, hR, rfl, rfl, fun i2 _ hi2 => absurd hi2 (Nat.not_lt_zero i2)⟩
  | succ i ih =>
    intro hi
    rcases ih (by omega) with ⟨R1, h1, hwf, hr, hc, hprev⟩ | ⟨e, he, h1, i2, j2, hi2, hj2, ht⟩
    · have hcol := colLoop_total ops A B n i R1 hwf (by omega)
        (fun j hj => hsum i j (by omega) (by omega)) R1.cols (Nat.le_refl _)
      rw [hc] at hcol
      rcases hcol with ⟨R2, h2, hwf2, hr2, hc2, hrow⟩ | ⟨e, he, h2, j2, hj2, ht⟩
      · refine Or.inl ⟨R2, by simp only [rowLoop, h1, h2], hwf2, by omega, by omega, ?_⟩
        intro i2 j2 hi2 hj2
        by_cases hii : i2 = i
        · subst hii; exact hrow j2 hj2
        · exact hprev i2 j2 (by omega) hj2
      · exact Or.inr ⟨e, he, by simp only [rowLoop, h1, h2], i, j2, by omega, hj2, ht⟩
    · exact Or.inr ⟨e, he, rowLoop_thrown_mono ops A B n R.cols R i e h1 1,
        i2, j2, by omega, hj2, ht⟩

theorem WF_reads (A B : Matrix α) (hA : A.WF) (hB : B.WF) (hdim : A.cols = B.rows)
    (i j k : Nat) (hi : i < A.rows) (hj : j < B.cols) (hk : k < A.cols) :
    ∃ a b, A.get i k = .ok a ∧ B.get k j = .ok b := by
  obtain ⟨a, ha⟩ := WF_get A hA i k hi hk
  obtain ⟨b, hb⟩ := WF_get B hB k j (by omega) hj
  exact ⟨a, b, ha, hb⟩

/-- On operands whose elements can all be read and that pass the two checks
before the loop, `multiply` returns a matrix, every `k` loop having completed,
or throws the `runtime_error` that wraps the loop exception of one of the `k`
loops. -/
theorem multiply_total (ops : Scalar α) (A B : Matrix α)
    (hreads : ∀ i j k, i < A.rows → j < B.cols → k < A.cols →
      ∃ a b, A.get i k = .ok a ∧ B.get k j = .ok b)
    (hdim : A.cols = B.rows) (hm : A.rows ≠ 0) (hp : B.cols ≠ 0)
    (hsize : A.rows * B.cols ≤ SIZE_MAX) :
    (∃ C, multiply ops A B = .ok C ∧
      ∀ i j, i < A.rows → j < B.cols → ∃ s, sumLoop ops A B i j A.cols = .ok s) ∨
    (∃ e, IsLoopCause e ∧ multiply ops A B = .thrown (multiplicationFailed e) ∧
      ∃ i j, i < A.rows ∧ j < B.cols ∧ sumLoop ops A B i j A.cols = .thrown e) := by
  have hg : resultSizeGuard A.rows B.cols = false := by
    cases hgd : resultSizeGuard A.rows B.cols with
    | false => rfl
    | true =>
      have := (resultSizeGuard_iff A.rows B.cols hp).mp hgd
      omega
  rw [multiply_of_guards ops A B hdim hp hg]
  have hnew : Matrix.new ops A.rows B.cols =
      .ok ⟨List.replicate A.rows (List.replicate B.cols ops.zero), A.rows, B.cols⟩ := by
    simp [Matrix.new, hm, hp]
  obtain ⟨hwf, hr, hc⟩ := new_WF ops A.rows B.cols _ hnew
  rw [hnew]
  have hsum : ∀ i j, i < A.rows → j < B.cols →
      (∃ s, sumLoop ops A B i j A.cols = .ok s) ∨
      (∃ e, IsLoopCause e ∧ sumLoop ops A B i j A.cols = .thrown e) := fun i j hi hj =>
    sumLoop_total ops A B i j A.cols (fun k hk => hreads i j k hi hj hk) A.cols (Nat.le_refl _)
  rcases rowLoop_total ops A B A.cols _ hwf hsum A.rows (Nat.le_refl _) with
    ⟨R2, h2, _, _, _, hall⟩ | ⟨e, he, h2, i2, j2, hi2, hj2, ht⟩
  · exact Or.inl ⟨R2, by simp only [h2, catchBlock], hall⟩
  · exact Or.inr ⟨e, he, by simp only [h2, catchBlock], i2, j2, hi2, hj2, ht⟩

/-- C4: for dimension-compatible operands whose result size passes the size
test, (1) if the operands are well formed and one of the two guards fires at some
`(i, j, k)`, `multiply` fails with the `runtime_error` whose message is the fixed
head followed by the message of a per-term or per-accumulation overflow; (2) every
exception `e` that leaves the loop reaches the caller as the `runtime_error` whose
message is the fixed head followed by `e.what()`; and (3) for all operands,
`multiply` never throws the per-term or the per-accumulation `overflow_error`
itself. -/
theorem multiply_wraps_loop_failures (ops : Scalar α) (A B : Matrix α) :
    (A.getCols = B.getRows → A.WF → B.WF → A.getRows * B.getCols ≤ SIZE_MAX →
      ∀ i j k, i < A.getRows → j < B.getCols → k < A.getCols →
        guardFiresAt ops A B i j k = true →
        ∃ cause, (cause = mulOverflow ∨ cause = sumOverflow) ∧
          multiply ops A B = .thrown ⟨.runtime_error, multiplyFailedHead ++ cause.what⟩) ∧
    (A.getCols = B.getRows → A.getRows * B.getCols ≤ SIZE_MAX →
      ∀ R, Matrix.new ops A.getRows B.getCols = .ok R →
        ∀ e, rowLoop ops A B A.getCols B.getCols R A.getRows = .thrown e →
          multiply ops A B = .thrown ⟨.runtime_error, multiplyFailedHead ++ e.what⟩) ∧
    multiply ops A B ≠ .thrown mulOverflow ∧
    multiply ops A B ≠ .thrown sumOverflow := by
  simp only [getRows, getCols]
  refine ⟨?_, ?_, ?_, ?_⟩
  · intro hdim hA hB hsize i j k hi hj hk hfire
    rcases multiply_total ops A B
        (fun i2 j2 k2 h1 h2 h3 => WF_reads A B hA hB hdim i2 j2 k2 h1 h2 h3)
        hdim (by omega) (by omega) hsize with
      ⟨C, _, hall⟩ | ⟨e, he, hmul, _⟩
    · obtain ⟨s, hs⟩ := hall i j hi hj
      obtain ⟨e, _, hthrow⟩ := sumLoop_of_fire ops A B i j k A.cols hk hfire
      rw [hs] at hthrow
      cases hthrow
    · exact ⟨e, he, hmul⟩
  · intro hdim hsize R hR e hloop
    have hpos : ¬ (A.rows = 0 ∨ B.cols = 0) := by
      intro h0
      simp [Matrix.new, h0] at hR
    have hp : B.cols ≠ 0 := by omega
    have hg : resultSizeGuard A.rows B.cols = false := by
      cases hgd : resultSizeGuard A.rows B.cols with
      | false => rfl
      | true =>
        have := (resultSizeGuard_iff A.rows B.cols hp).mp hgd
        omega
    rw [multiply_of_guards ops A B hdim hp hg, hR]
    simp only [hloop, catchBlock, multiplicationFailed]
  · intro h
    rcases multiply_thrown_cases ops A B _ h with h1 | h1 | h1 | h1
    · have := congrArg Exc.cls h1.2
      simp [dimensionMismatch, mulOverflow] at this
    · exact absurd h1.2.2.2 (by decide)
    · exact absurd h1.2.2.2.2 (by decide)
    · exact absurd h1.2.2.2 (by decide)
  · intro h
    rcases multiply_thrown_cases ops A B _ h with h1 | h1 | h1 | h1
    · have := congrArg Exc.cls h1.2
      simp [dimensionMismatch, sumOverflow] at this
    · exact absurd h1.2.2.2 (by decide)
    · exact absurd h1.2.2.2.2 (by decide)
    · exact absurd h1.2.2.2 (by decide)

theorem multiply_wraps_loop_failures_witness :
    ∃ cause, (cause = mulOverflow ∨ cause = sumOverflow) ∧
      multiply extOps large1x1 large1x1 =
        .thrown ⟨.runtime_error, multiplyFailedHead ++ cause.what⟩ :=
  (multiply_wraps_loop_failures extOps large1x1 large1x1).1 rfl
    (by simp [Matrix.WF, large1x1]) (by simp [Matrix.WF, large1x1])
    (by norm_num [SIZE_MAX, large1x1, getRows, getCols]) 0 0 0
    (by decide) (by decide) (by decide) (by decide!)

/-! ## Obtainable matrices -/

theorem fromValues_eq_ok (rows cols : Nat) (values : List (List α)) (M : Matrix α)
    (h : Matrix.fromValues rows cols values = .ok M) :
    rows ≠ 0 ∧ cols ≠ 0 ∧ M = ⟨values, rows, cols⟩ := by
  by_cases h0 : rows = 0 ∨ cols = 0
  · simp [Matrix.fromValues, h0] at h
  · refine ⟨by omega, by omega, ?_⟩
    simp only [Matrix.fromValues, h0, if_false] at h
    split at h
    · cases h
    · split at h
      · split at h
        · split at h
          · cases h
          · cases h; rfl
        · cases h
        · cases h
      · cases h; rfl

theorem set_length (M M2 : Matrix α) (i j : Nat) (v : α) (h : M.set i j v = .ok M2) :
    M2.data.length = M.data.length := by
  obtain ⟨_, _, row, x, _, _, rfl⟩ := set_eq_ok M M2 i j v h
  exact List.length_set _ _ _

theorem colLoop_length (ops : Scalar α) (A B : Matrix α) (n i : Nat) (R : Matrix α) :
    ∀ (j : Nat) (R2 : Matrix α), colLoop ops A B n i R j = .ok R2 →
      R2.data.length = R.data.length := by
  intro j
  induction j with
  | zero =>
    intro R2 h
    simp only [colLoop] at h
    cases h
    rfl
  | succ j ih =>
    intro R2 h
    obtain ⟨R1, s, h1, _, h3⟩ := colLoop_succ_ok ops A B n i R R2 j h
    rw [set_length R1 R2 i j s h3, ih R1 h1]

theorem rowLoop_length (ops : Scalar α) (A B : Matrix α) (n p : Nat) (R : Matrix α) :
    ∀ (i : Nat) (R2 : Matrix α), rowLoop ops A B n p R i = .ok R2 →
      R2.data.length = R.data.length := by
  intro i
  induction i with
  | zero =>
    intro R2 h
    simp only [rowLoop] at h
    cases h
    rfl
  | succ i ih =>
    intro R2 h
    obtain ⟨R1, h1, h2⟩ := rowLoop_succ_ok ops A B n p R R2 i h
    rw [colLoop_length ops A B n i R1 p R2 h2, ih R1 h1]

/-- Every obtainable matrix stores as many rows as `getRows()` reports. -/
theorem Obtainable_length (ops : Scalar α) (M : Matrix α) (h : Obtainable ops M) :
    M.data.length = M.rows := by
  induction h with
  | ctor rows cols M hM => exact (new_WF ops rows cols M hM).1.1
  | ctorValues rows cols values M hM =>
    obtain ⟨_, _, rfl⟩ := fromValues_eq_ok rows cols values M hM
    by_cases h0 : rows = 0 ∨ cols = 0
    · simp [Matrix.fromValues, h0] at hM
    · by_contra hl
      have hl2 : values.length ≠ rows := hl
      simp [Matrix.fromValues, h0, hl2] at hM
  | assign M M2 i j v _ hset ih =>
    obtain ⟨hr, _, _, _⟩ := set_get M M2 i j v hset
    rw [set_length M M2 i j v hset, ih, hr]
  | product A B C _ _ hmul _ _ =>
    obtain ⟨_, _, _, _, hloop⟩ := multiply_eq_ok ops A B C hmul
    obtain ⟨hr, _, _, _⟩ := rowLoop_ok ops A B A.cols B.cols _ A.rows C hloop
    rw [rowLoop_length ops A B A.cols B.cols _ A.rows C hloop, hr]
    exact List.length_replicate _ _

/-- Every obtainable matrix has at least one row and one column. -/
theorem Obtainable_pos (ops : Scalar α) (M : Matrix α) (h : Obtainable ops M) :
    1 ≤ M.rows ∧ 1 ≤ M.cols := by
  induction h with
  | ctor rows cols M hM =>
    obtain ⟨_, hr, hc⟩ := new_WF ops rows cols M hM
    have h0 : ¬ (rows = 0 ∨ cols = 0) := by
      intro h0
      simp [Matrix.new, h0] at hM
    omega
  | ctorValues rows cols values M hM =>
    obtain ⟨hr, hc, rfl⟩ := fromValues_eq_ok rows cols values M hM
    exact ⟨Nat.pos_of_ne_zero hr, Nat.pos_of_ne_zero hc⟩
  | assign M M2 i j v _ hset ih =>
    obtain ⟨hr, hc, _, _⟩ := set_get M M2 i j v hset
    omega
  | product A B C _ _ hmul ihA ihB =>
    obtain ⟨_, _, _, _, hloop⟩ := multiply_eq_ok ops A B C hmul
    obtain ⟨hr, hc, _, _⟩ := rowLoop_ok ops A B A.cols B.cols _ A.rows C hloop
    simp only at hr hc
    omega

/-- C8: every matrix obtained from the public operations (a successful result of
either constructor, of an element assignment, or of `multiply`) has
`getRows() ≥ 1` and `getCols() ≥ 1`; hence, for obtainable operands, the divisor
of the size test of `multiply` is not zero, the construction of the result matrix
succeeds, and `multiply` never fails with the zero-dimension exception. -/
theorem obtainable_dims_positive (ops : Scalar α) (A B : Matrix α)
    (hA : Obtainable ops A) (hB : Obtainable ops B) :
    (1 ≤ A.getRows ∧ 1 ≤ A.getCols) ∧
    B.getCols ≠ 0 ∧
    (∃ R, Matrix.new ops A.getRows B.getCols = .ok R) ∧
    multiply ops A B ≠ .thrown invalidDimensions := by
  obtain ⟨har, hac⟩ := Obtainable_pos ops A hA
  obtain ⟨hbr, hbc⟩ := Obtainable_pos ops B hB
  simp only [getRows, getCols]
  refine ⟨⟨har, hac⟩, by omega, ?_, ?_⟩
  · have h0 : ¬ (A.rows = 0 ∨ B.cols = 0) := by omega
    exact ⟨⟨List.replicate A.rows (List.replicate B.cols ops.zero), A.rows, B.cols⟩,
      by simp only [Matrix.new, h0, if_false]⟩
  · intro h
    rcases multiply_thrown_cases ops A B _ h with h1 | h1 | h1 | h1
    · exact dimensionMismatch_ne_invalidDimensions _ _ h1.2.symm
    · exact absurd h1.2.2.2 (by decide)
    · have := h1.2.2.2.1
      omega
    · exact absurd h1.2.2.2 (by decide)

theorem obtainable_dims_positive_witness :
    (1 ≤ exampleA.getRows ∧ 1 ≤ exampleA.getCols) ∧
    exampleB.getCols ≠ 0 ∧
    (∃ R, Matrix.new ratOps exampleA.getRows exampleB.getCols = .ok R) ∧
    multiply ratOps exampleA exampleB ≠ .thrown invalidDimensions :=
  obtainable_dims_positive ratOps exampleA exampleB
    (Obtainable.ctorValues 2 3 valuesA exampleA (by decide))
    (Obtainable.ctorValues 3 2 valuesB exampleB (by decide))

/-! ### Exact arithmetic -/

theorem accumulate_ratOps (sum a b : ℚ) :
    accumulate ratOps sum a b = .ok (sum + a * b) := by
  have h1 : termGuard ratOps a b (a * b) = false := by
    simp only [termGuard, ratOps, Bool.or_eq_false_iff, Bool.and_eq_false_iff,
      decide_eq_false_iff_not, not_not]
    constructor
    · by_cases ha : a = 0
      · exact Or.inl ha
      · exact Or.inr (by field_simp)
    · by_cases hb : b = 0
      · exact Or.inl hb
      · exact Or.inr (by field_simp)
  have h2 : sumGuard ratOps sum (a * b) (sum + a * b) = false := by
    simp only [sumGuard, ratOps, Bool.or_eq_false_iff, Bool.and_eq_false_iff,
      decide_eq_false_iff_not, not_lt]
    constructor
    · by_cases hp : 0 < a * b
      · exact Or.inr (by linarith)
      · exact Or.inl (by linarith)
    · by_cases hp : a * b < 0
      · exact Or.inr (by linarith)
      · exact Or.inl (by linarith)
  have e1 : ratOps.mul a b = a * b := rfl
  have e2 : ratOps.add sum (a * b) = sum + a * b := rfl
  simp only [accumulate, e1, e2, h1, h2]
  rfl

/-- The `k` loop of `M * I`, with `I` an identity matrix, holds `0` until it has
passed `k = j` and `M(i,j)` from then on. -/
theorem sumLoop_identity (M I : Matrix ℚ) (n i j : Nat) (x : Nat → ℚ)
    (hM : ∀ k, k < n → M.get i k = .ok (x k))
    (hI : ∀ k, k < n → I.get k j = .ok (if k = j then 1 else 0)) :
    ∀ k, k ≤ n → sumLoop ratOps M I i j k = .ok (if j < k then x j else 0) := by
  intro k
  induction k with
  | zero => intro _; rfl
  | succ k ih =>
    intro hk
    simp only [sumLoop, ih (by omega), hM k (by omega), hI k (by omega), accumulate_ratOps]
    by_cases hkj : k = j
    · subst hkj
      simp
    · have h1 : (j < k + 1) = (j < k) := by
        apply propext
        constructor <;> intro h <;> omega
      simp [hkj, h1]

theorem identity_get (n i j : Nat) (hi : i < n) (hj : j < n) :
    (identity n).get i j = .ok (if i = j then 1 else 0) := by
  have hb : ¬ (i ≥ n ∨ j ≥ n) := by omega
  simp [identity, Matrix.get, vecAt, hb, List.getElem?_map, List.getElem?_range, hi, hj]

theorem sum_length_of_forall (l : List (List α)) (c : Nat)
    (h : ∀ row ∈ l, row.length = c) : (l.map List.length).sum = l.length * c := by
  induction l with
  | nil => simp
  | cons row rest ih =>
    have h1 : row.length = c := h row (List.mem_cons_self _ _)
    have h2 := ih (fun r hr => h r (List.mem_cons_of_mem _ hr))
    simp only [List.map_cons, List.sum_cons, List.length_cons, h1, h2]
    ring

/-- A well-formed matrix stores `rows * cols` elements. -/
theorem WF_count (M : Matrix α) (hM : M.WF) :
    (M.data.map List.length).sum = M.rows * M.cols := by
  rw [sum_length_of_forall M.data M.cols hM.2, hM.1]

/-- C10: for every `n ≥ 1`, every square `n × n` matrix `M` that the program can
hold (well formed, its elements addressable; integral-valued elements included)
and every `n × n` matrix `I` holding `1` on the diagonal and `0` elsewhere,
`multiply(M, I)` in exact arithmetic returns a matrix of `n` rows and `n` columns
that equals `M` element for element. -/
theorem multiply_identity (n : Nat) (M I : Matrix ℚ) (hn : 1 ≤ n)
    (hM : M.WF) (hmem : M.Storable) (hMr : M.getRows = n) (hMc : M.getCols = n)
    (hIr : I.getRows = n) (hIc : I.getCols = n)
    (hI : ∀ i j, i < n → j < n → I.get i j = .ok (if i = j then 1 else 0)) :
    ∃ C, multiply ratOps M I = .ok C ∧ C.getRows = n ∧ C.getCols = n ∧
      ∀ i j, i < n → j < n → ∃ x, M.get i j = .ok x ∧ C.get i j = .ok x := by
  simp only [getRows, getCols] at hMr hMc hIr hIc ⊢
  have hsize : n * n ≤ SIZE_MAX := by
    have hcount := WF_count M hM
    rw [hMr, hMc] at hcount
    rw [← hcount]
    exact hmem
  have hreadM : ∀ i k, i < n → k < n → M.get i k = .ok ((M.get i k).getD 0) := by
    intro i k hi hk
    obtain ⟨x, hx⟩ := WF_get M hM i k (by omega) (by omega)
    rw [hx]
    rfl
  have hsum : ∀ i j, i < n → j < n →
      sumLoop ratOps M I i j n = .ok ((M.get i j).getD 0) := by
    intro i j hi hj
    have h := sumLoop_identity M I n i j (fun k => (M.get i k).getD 0)
      (fun k hk => hreadM i k hi hk) (fun k hk => hI k j hk hj) n (Nat.le_refl _)
    simpa [hj] using h
  rcases multiply_total ratOps M I
      (fun i j k hi hj hk => ⟨_, _, hreadM i k (by omega) (by omega),
        hI k j (by omega) (by omega)⟩)
      (by omega) (by omega) (by omega) (by rw [hMr, hIc]; exact hsize) with
    ⟨C, hC, _⟩ | ⟨e, _, _, i, j, hi, hj, ht⟩
  · obtain ⟨_, _, _, _, hloop⟩ := multiply_eq_ok ratOps M I C hC
    obtain ⟨hr, hc, hd, _⟩ := rowLoop_ok ratOps M I M.cols I.cols _ M.rows C hloop
    simp only at hr hc
    refine ⟨C, hC, by omega, by omega, ?_⟩
    intro i j hi hj
    obtain ⟨s, hs, hg⟩ := hd i j (by omega) (by omega)
    rw [hMc, hsum i j hi hj] at hs
    cases hs
    exact ⟨_, hreadM i j hi hj, hg⟩
  · rw [hMc, hsum i j (by omega) (by omega)] at ht
    cases ht

theorem multiply_identity_witness :
    ∃ C, multiply ratOps square2x2 (identity 2) = .ok C ∧
      C.getRows = 2 ∧ C.getCols = 2 ∧
      ∀ i j, i < 2 → j < 2 → ∃ x, square2x2.get i j = .ok x ∧ C.get i j = .ok x :=
  multiply_identity 2 square2x2 (identity 2) (by decide)
    (by simp [Matrix.WF, square2x2])
    (show (square2x2.data.map List.length).sum ≤ SIZE_MAX by decide) rfl rfl rfl rfl
    (fun i j hi hj => identity_get 2 i j hi hj)

/-! ## The example in the reversed order -/

theorem multiply_exampleB_exampleA :
    multiply ratOps exampleB exampleA = .ok exampleBA := by
  decide!

/-- C11, as stated, fails on the code: for the example matrices `A` (2×3) and `B`
(3×2), `B.getCols() = 2 = A.getRows()`, so `multiply(B, A)` does not throw the
dimension-mismatch exception, whatever dimensions the message would carry. -/
theorem multiply_reversed_counterexample :
    Matrix.fromValues 2 3 valuesA = .ok exampleA ∧
    Matrix.fromValues 3 2 valuesB = .ok exampleB ∧
    exampleB.getCols = exampleA.getRows ∧
    ¬ ∃ c r, multiply ratOps exampleB exampleA = .thrown (dimensionMismatch c r) := by
  refine ⟨by decide, by decide, rfl, ?_⟩
  rintro ⟨c, r, h⟩
  rw [multiply_exampleB_exampleA] at h
  cases h

/-- C11, as amended: for the example matrices `A` (2×3) and `B` (3×2),
`multiply(B, A)` returns the 3×3 matrix `[[39,54,69],[49,68,87],[59,82,105]]`,
which is not the result `[[58,64],[139,154]]` of `multiply(A, B)`. -/
theorem multiply_reversed :
    multiply ratOps exampleB exampleA = .ok exampleBA ∧
    exampleBA.data = [[39, 54, 69], [49, 68, 87], [59, 82, 105]] ∧
    exampleBA.getRows = 3 ∧ exampleBA.getCols = 3 ∧
    multiply ratOps exampleA exampleB = .ok exampleC ∧
    multiply ratOps exampleB exampleA ≠ multiply ratOps exampleA exampleB := by
  refine ⟨by decide!, rfl, rfl, rfl, by decide!, by decide!⟩

/-! ## Element assignment -/

/-- C16: in a matrix that stores `rows` rows of `cols` elements each, assigning
`v` through `M(i, j)` at an index within bounds completes; afterwards `M(i, j)`
reads `v`, every other place reads what it read before, and `getRows()` and
`getCols()` are as before.  In every matrix, an assignment at an index out of
bounds throws the `out_of_range` exception and leaves the matrix as it was. -/
theorem assign_frame (M : Matrix α) (i j : Nat) (v : α) :
    (M.WF → i < M.getRows → j < M.getCols →
      (M.assign i j v).2 = .ok () ∧
      (M.assign i j v).1.get i j = .ok v ∧
      (∀ i2 j2, (i2 ≠ i ∨ j2 ≠ j) → (M.assign i j v).1.get i2 j2 = M.get i2 j2) ∧
      (M.assign i j v).1.getRows = M.getRows ∧
      (M.assign i j v).1.getCols = M.getCols) ∧
    ((i ≥ M.getRows ∨ j ≥ M.getCols) →
      M.assign i j v = (M, .thrown indexOutOfRange)) := by
  simp only [getRows, getCols]
  constructor
  · intro hM hi hj
    obtain ⟨M2, h2⟩ := WF_set M hM i j v hi hj
    obtain ⟨hr, hc, hg, ho⟩ := set_get M M2 i j v h2
    have e : M.assign i j v = (M2, .ok ()) := by simp only [Matrix.assign, h2]
    rw [e]
    exact ⟨rfl, hg, ho, hr, hc⟩
  · intro h
    simp only [Matrix.assign, Matrix.set, h, if_true]

theorem assign_frame_witness :
    ((zero3x3.assign 2 2 7).2 = .ok () ∧
    (zero3x3.assign 2 2 7).1.get 2 2 = .ok 7 ∧
    (∀ i2 j2, (i2 ≠ 2 ∨ j2 ≠ 2) → (zero3x3.assign 2 2 7).1.get i2 j2 = zero3x3.get i2 j2) ∧
    (zero3x3.assign 2 2 7).1.getRows = zero3x3.getRows ∧
    (zero3x3.assign 2 2 7).1.getCols = zero3x3.getCols) ∧
    zero3x3.assign 3 0 7 = (zero3x3, .thrown indexOutOfRange) :=
  ⟨(assign_frame zero3x3 2 2 7).1 (by simp [Matrix.WF, zero3x3]) (by decide) (by decide),
    (assign_frame zero3x3 3 0 7).2 (Or.inl (Nat.le_refl 3))⟩

/-! ## Exact arithmetic on an ordered field -/

theorem termGuard_fieldOps {K : Type} [LinearOrderedField K] (a b : K) :
    termGuard (fieldOps K) a b (a * b) = false := by
  simp only [termGuard, fieldOps, Bool.or_eq_false_iff, Bool.and_eq_false_iff,
    decide_eq_false_iff_not, not_not]
  constructor
  · by_cases ha : a = 0
    · exact Or.inl ha
    · exact Or.inr (by field_simp)
  · by_cases hb : b = 0
    · exact Or.inl hb
    · exact Or.inr (by field_simp)

theorem sumGuard_fieldOps {K : Type} [LinearOrderedField K] (sum product : K) :
    sumGuard (fieldOps K) sum product (sum + product) = false := by
  simp only [sumGuard, fieldOps, Bool.or_eq_false_iff, Bool.and_eq_false_iff,
    decide_eq_false_iff_not, not_lt]
  constructor
  · by_cases hp : 0 < product
    · exact Or.inr (by linarith)
    · exact Or.inl (by linarith)
  · by_cases hp : product < 0
    · exact Or.inr (by linarith)
    · exact Or.inl (by linarith)

theorem accumulate_fieldOps {K : Type} [LinearOrderedField K] (sum a b : K) :
    accumulate (fieldOps K) sum a b = .ok (sum + a * b) := by
  have e1 : (fieldOps K).mul a b = a * b := rfl
  have e2 : (fieldOps K).add sum (a * b) = sum + a * b := rfl
  simp only [accumulate, e1, e2, termGuard_fieldOps, sumGuard_fieldOps]
  rfl

theorem sumLoop_fieldOps_ok {K : Type} [LinearOrderedField K] (A B : Matrix K)
    (i j n : Nat) (hreads : ∀ k, k < n → ∃ a b, A.get i k = .ok a ∧ B.get k j = .ok b) :
    ∀ k, k ≤ n → ∃ s, sumLoop (fieldOps K) A B i j k = .ok s := by
  intro k
  induction k with
  | zero => intro _; exact ⟨0, rfl⟩
  | succ k ih =>
    intro hk
    obtain ⟨s, hs⟩ := ih (by omega)
    obtain ⟨a, b, ha, hb⟩ := hreads k (by omega)
    exact ⟨s + a * b, by simp only [sumLoop, hs, ha, hb, accumulate_fieldOps]⟩

/-- C13: in the exact arithmetic of a linearly ordered field (the rationals, and
with them the integral values) neither guard of the loop fires: dividing a
product by a non-zero factor gives the other factor, adding a positive product
does not decrease the running sum and adding a negative one does not increase it.
Hence for operands that store `rows ≥ 1` rows of `cols ≥ 1` elements each, with
`A.getCols() = B.getRows()` and `A.getRows() * B.getCols() ≤ SIZE_MAX`,
`multiply` returns a matrix. -/
theorem multiply_exact_succeeds {K : Type} [LinearOrderedField K] (A B : Matrix K)
    (hA : A.WF) (hB : B.WF) (hm : 1 ≤ A.getRows) (hp : 1 ≤ B.getCols)
    (hdim : A.getCols = B.getRows) (hsize : A.getRows * B.getCols ≤ SIZE_MAX) :
    (∀ a b : K, (a ≠ 0 → (fieldOps K).div ((fieldOps K).mul a b) a = b) ∧
      (b ≠ 0 → (fieldOps K).div ((fieldOps K).mul a b) b = a) ∧
      termGuard (fieldOps K) a b ((fieldOps K).mul a b) = false) ∧
    (∀ sum product : K,
      (0 < product → ¬ (fieldOps K).add sum product < sum) ∧
      (product < 0 → ¬ sum < (fieldOps K).add sum product) ∧
      sumGuard (fieldOps K) sum product ((fieldOps K).add sum product) = false) ∧
    (∀ i j k, guardFiresAt (fieldOps K) A B i j k = false) ∧
    ∃ C, multiply (fieldOps K) A B = .ok C := by
  simp only [getRows, getCols] at hm hp hdim hsize
  refine ⟨?_, ?_, ?_, ?_⟩
  · intro a b
    refine ⟨fun ha => ?_, fun hb => ?_, termGuard_fieldOps a b⟩
    · show a * b / a = b
      field_simp
    · show a * b / b = a
      field_simp
  · intro sum product
    refine ⟨fun h => ?_, fun h => ?_, sumGuard_fieldOps sum product⟩
    · show ¬ sum + product < sum
      linarith
    · show ¬ sum < sum + product
      linarith
  · intro i j k
    unfold guardFiresAt
    split
    · next sum a b _ _ _ =>
      have h1 := termGuard_fieldOps a b
      have h2 := sumGuard_fieldOps sum (a * b)
      have e1 : (fieldOps K).mul a b = a * b := rfl
      have e2 : (fieldOps K).add sum (a * b) = sum + a * b := rfl
      rw [e1, e2, h1, h2]
      rfl
    · rfl
  · rcases multiply_total (fieldOps K) A B
        (fun i j k hi hj hk => WF_reads A B hA hB hdim i j k hi hj hk)
        hdim (by omega) (by omega) hsize with
      ⟨C, hC, _⟩ | ⟨e, _, _, i, j, hi, hj, ht⟩
    · exact ⟨C, hC⟩
    · obtain ⟨s, hs⟩ := sumLoop_fieldOps_ok A B i j A.cols
        (fun k hk => WF_reads A B hA hB hdim i j k hi hj hk) A.cols (Nat.le_refl _)
      rw [hs] at ht
      cases ht

theorem multiply_exact_succeeds_witness :
    (∀ a b : ℚ, (a ≠ 0 → (fieldOps ℚ).div ((fieldOps ℚ).mul a b) a = b) ∧
      (b ≠ 0 → (fieldOps ℚ).div ((fieldOps ℚ).mul a b) b = a) ∧
      termGuard (fieldOps ℚ) a b ((fieldOps ℚ).mul a b) = false) ∧
    (∀ sum product : ℚ,
      (0 < product → ¬ (fieldOps ℚ).add sum product < sum) ∧
      (product < 0 → ¬ sum < (fieldOps ℚ).add sum product) ∧
      sumGuard (fieldOps ℚ) sum product ((fieldOps ℚ).add sum product) = false) ∧
    (∀ i j k, guardFiresAt (fieldOps ℚ) exampleA exampleB i j k = false) ∧
    ∃ C, multiply (fieldOps ℚ) exampleA exampleB = .ok C :=
  multiply_exact_succeeds exampleA exampleB
    (by simp [Matrix.WF, exampleA, valuesA]) (by simp [Matrix.WF, exampleB, valuesB])
    (by decide) (by decide) rfl (by norm_num [SIZE_MAX, exampleA, exampleB, getRows, getCols])

/-! ## Overflow of a product -/

theorem DBL_OVERFLOW_pos : 0 < DBL_OVERFLOW := by
  unfold DBL_OVERFLOW
  norm_num

/-- Rounding at the edges of the range of `double`: `0.1` is rounded to
`3602879701896397 / 2^55` and `10^200` to `2941796710330669 * 2^613`; a value
less than half a spacing above `DBL_MAX` is rounded to `DBL_MAX`, and
`DBL_OVERFLOW` to an infinity; half the smallest subnormal number is rounded to
zero and anything above it to that number. -/
theorem ofRat_samples :
    Ext.ofRat (1 / 10) = .fin (3602879701896397 / 2 ^ 55) ∧
    Ext.ofRat (10 ^ 200) = .fin (2941796710330669 * 2 ^ 613) ∧
    Ext.ofRat (DBL_MAX + 2 ^ 969) = .fin DBL_MAX ∧
    Ext.ofRat DBL_OVERFLOW = .posInf ∧
    Ext.ofRat (-DBL_OVERFLOW) = .negInf ∧
    Ext.ofRat (Ext.twoPow (-1075)) = .fin 0 ∧
    Ext.ofRat (Ext.twoPow (-1075) + Ext.twoPow (-1200)) = .fin (Ext.twoPow (-1074)) := by
  refine ⟨?_, ?_, ?_, ?_, ?_, ?_, ?_⟩ <;> decide!

/-- A product that exceeds `DBL_MAX` by less than half a spacing does not
overflow: `5 * 0x1.9999999999999p+1021` is rounded to `DBL_MAX`, both divisions
give back the factors, and `multiply` returns the matrix holding `DBL_MAX`. -/
theorem multiply_below_overflow :
    (5 : ℚ) * (7205759403792793 * 2 ^ 969) = DBL_MAX + 2 ^ 969 ∧
    multiply extOps ⟨[[.fin 5]], 1, 1⟩ ⟨[[.fin (7205759403792793 * 2 ^ 969)]], 1, 1⟩ =
      .ok ⟨[[.fin DBL_MAX]], 1, 1⟩ := by
  refine ⟨?_, ?_⟩ <;> decide!

/-- When the exact product of two values rounds to an infinity, the per-term test
of the loop is true in `double` arithmetic: dividing the infinity by the first
factor does not give back the second. -/
theorem termGuard_extOps_overflow (a b : ℚ)
    (hover : DBL_OVERFLOW ≤ a * b ∨ a * b ≤ -DBL_OVERFLOW) :
    termGuard extOps (.fin a) (.fin b) (extOps.mul (.fin a) (.fin b)) = true := by
  have hpos := DBL_OVERFLOW_pos
  have ha : a ≠ 0 := by
    rintro rfl
    rcases hover with h | h
    · simp at h; linarith
    · simp at h; linarith
  have hne : Ext.ne (.fin a) (.fin 0) = true := by
    simp [Ext.ne, ha]
  have hprod : extOps.mul (.fin a) (.fin b) = .posInf ∨ extOps.mul (.fin a) (.fin b) = .negInf := by
    rcases hover with h | h
    · left
      simp [extOps, Ext.mul, Ext.ofRat, h]
    · right
      have h2 : ¬ DBL_OVERFLOW ≤ a * b := by linarith
      simp [extOps, Ext.mul, Ext.ofRat, h, h2]
  have hdiv : Ext.ne (Ext.div (extOps.mul (.fin a) (.fin b)) (.fin a)) (.fin b) = true := by
    rcases hprod with h | h
    · rw [h]
      by_cases hneg : a < 0
      · simp [Ext.div, hneg, Ext.ne]
      · simp [Ext.div, hneg, Ext.ne]
    · rw [h]
      by_cases hneg : a < 0
      · simp [Ext.div, hneg, Ext.ne]
      · simp [Ext.div, hneg, Ext.ne]
  have e0 : extOps.zero = .fin 0 := rfl
  have e1 : extOps.ne = Ext.ne := rfl
  have e2 : extOps.div = Ext.div := rfl
  simp only [termGuard, e0, e1, e2, hne, hdiv, Bool.and_self, Bool.true_or]

/-- C12: for two 1×1 matrices holding values whose product exceeds the range of
`double`, that is, whose exact product rounds to an infinity (its magnitude is at
least `DBL_OVERFLOW`, as for two values near `DBL_MAX`), `multiply` in `double`
arithmetic returns no matrix: it throws the `runtime_error` whose message is the
fixed head followed by the message of the per-term overflow. -/
theorem multiply_overflow_1x1 (a b : ℚ)
    (hover : DBL_OVERFLOW ≤ a * b ∨ a * b ≤ -DBL_OVERFLOW) :
    multiply extOps ⟨[[.fin a]], 1, 1⟩ ⟨[[.fin b]], 1, 1⟩ =
      .thrown ⟨.runtime_error, multiplyFailedHead ++ mulOverflow.what⟩ ∧
    ∀ C, multiply extOps ⟨[[.fin a]], 1, 1⟩ ⟨[[.fin b]], 1, 1⟩ ≠ .ok C := by
  have hguard := termGuard_extOps_overflow a b hover
  have hmul : multiply extOps ⟨[[.fin a]], 1, 1⟩ ⟨[[.fin b]], 1, 1⟩ =
      .thrown ⟨.runtime_error, multiplyFailedHead ++ mulOverflow.what⟩ := by
    have hg : resultSizeGuard 1 1 = false := by decide
    have hacc : ∀ s, accumulate extOps s (.fin a) (.fin b) = .thrown mulOverflow := by
      intro s
      simp only [accumulate, hguard, if_true]
    simp [multiply, getRows, getCols, hg, Matrix.new, rowLoop, colLoop, sumLoop, Matrix.get,
      vecAt, hacc, catchBlock, multiplicationFailed]
  refine ⟨hmul, ?_⟩
  intro C hC
  rw [hmul] at hC
  cases hC

theorem multiply_overflow_1x1_witness :
    (DBL_OVERFLOW ≤ DBL_MAX * DBL_MAX ∨ DBL_MAX * DBL_MAX ≤ -DBL_OVERFLOW) ∧
    multiply extOps max1x1 max1x1 =
      .thrown ⟨.runtime_error, multiplyFailedHead ++ mulOverflow.what⟩ ∧
    ∀ C, multiply extOps max1x1 max1x1 ≠ .ok C :=
  ⟨Or.inl (by decide!), multiply_overflow_1x1 DBL_MAX DBL_MAX (Or.inl (by decide!))⟩

/-! ## Accesses inside the loop -/

theorem multiplicationFailed_indexOutOfRange_ne :
    multiplicationFailed indexOutOfRange ≠ multiplicationFailed mulOverflow ∧
    multiplicationFailed indexOutOfRange ≠ multiplicationFailed sumOverflow := by
  constructor <;> decide

/-- Every exception of class `runtime_error` that `multiply` throws on operands
whose elements can all be read wraps one of the two loop exceptions. -/
theorem multiply_runtime_error (ops : Scalar α) (A B : Matrix α)
    (hreads : ∀ i j k, i < A.rows → j < B.cols → k < A.cols →
      ∃ a b, A.get i k = .ok a ∧ B.get k j = .ok b)
    (e : Exc) (h : multiply ops A B = .thrown e) (hcls : e.cls = .runtime_error) :
    ∃ cause, IsLoopCause cause ∧ e = multiplicationFailed cause := by
  rcases multiply_thrown_cases ops A B e h with h1 | h1 | h1 | h1
  · rw [h1.2] at hcls
    cases hcls
  · rw [h1.2.2.2] at hcls
    cases hcls
  · rw [h1.2.2.2.2] at hcls
    cases hcls
  · obtain ⟨hdim, hp, hg, _⟩ := h1
    by_cases hm : A.rows = 0
    · rw [multiply_of_guards ops A B hdim hp hg] at h
      simp only [Matrix.new, hm, true_or, if_true] at h
      cases h
      cases hcls
    · have hsize : A.rows * B.cols ≤ SIZE_MAX := by
        by_contra hc
        have := (resultSizeGuard_iff A.rows B.cols hp).mpr (by omega)
        rw [hg] at this
        cases this
      rcases multiply_total ops A B hreads hdim hm hp hsize with
        ⟨C, hC, _⟩ | ⟨cause, hcause, hmul, _⟩
      · rw [hC] at h
        cases h
      · rw [hmul] at h
        cases h
        exact ⟨cause, hcause, rfl⟩

theorem colLoop_WF (ops : Scalar α) (A B : Matrix α) (n i : Nat) (R : Matrix α)
    (hR : R.WF) :
    ∀ (j : Nat) (R2 : Matrix α), colLoop ops A B n i R j = .ok R2 →
      R2.WF ∧ R2.rows = R.rows ∧ R2.cols = R.cols := by
  intro j
  induction j with
  | zero =>
    intro R2 h
    simp only [colLoop] at h
    cases h
    exact ⟨hR, rfl, rfl⟩
  | succ j ih =>
    intro R2 h
    obtain ⟨R1, s, h1, _, h3⟩ := colLoop_succ_ok ops A B n i R R2 j h
    obtain ⟨hwf, hr, hc⟩ := ih R1 h1
    obtain ⟨sr, sc, _, _⟩ := set_get R1 R2 i j s h3
    exact ⟨set_WF R1 R2 hwf i j s h3, by omega, by omega⟩

theorem rowLoop_WF (ops : Scalar α) (A B : Matrix α) (n p : Nat) (R : Matrix α)
    (hR : R.WF) :
    ∀ (i : Nat) (R2 : Matrix α), rowLoop ops A B n p R i = .ok R2 →
      R2.WF ∧ R2.rows = R.rows ∧ R2.cols = R.cols := by
  intro i
  induction i with
  | zero =>
    intro R2 h
    simp only [rowLoop] at h
    cases h
    exact ⟨hR, rfl, rfl⟩
  | succ i ih =>
    intro R2 h
    obtain ⟨R1, h1, h2⟩ := rowLoop_succ_ok ops A B n p R R2 i h
    obtain ⟨hwf, hr, hc⟩ := ih R1 h1
    obtain ⟨hwf2, hr2, hc2⟩ := colLoop_WF ops A B n i R1 hwf p R2 h2
    exact ⟨hwf2, by omega, by omega⟩

/-- C14: for operands that store `rows` rows of `cols` elements each, with
`A.getCols() = B.getRows()`, every access of the loop is within bounds: each read
`A(i,k)` and `B(k,j)` with `i < m`, `j < p`, `k < n` gives an element, and each
write `result(i,j)` into the result matrix as the loops have left it completes.
So no `out_of_range` exception arises there, and every `runtime_error` thrown by
`multiply` wraps the per-term or the per-accumulation overflow. -/
theorem loop_accesses_in_bounds (ops : Scalar α) (A B : Matrix α)
    (hA : A.WF) (hB : B.WF) (hdim : A.getCols = B.getRows) :
    (∀ i j k, i < A.getRows → j < B.getCols → k < A.getCols →
      (∃ a, A.get i k = .ok a) ∧ (∃ b, B.get k j = .ok b)) ∧
    (∀ R, Matrix.new ops A.getRows B.getCols = .ok R →
      ∀ i j, i < A.getRows → j < B.getCols →
        ∀ R1 R2, rowLoop ops A B A.getCols B.getCols R i = .ok R1 →
          colLoop ops A B A.getCols i R1 j = .ok R2 →
          ∀ v, ∃ R3, R2.set i j v = .ok R3) ∧
    (∀ e, multiply ops A B = .thrown e → e.cls = .runtime_error →
      e = multiplicationFailed mulOverflow ∨ e = multiplicationFailed sumOverflow) ∧
    multiply ops A B ≠ .thrown (multiplicationFailed indexOutOfRange) := by
  simp only [getRows, getCols] at hdim ⊢
  have hreads := fun i j k hi hj hk => WF_reads A B hA hB hdim i j k hi hj hk
  have hwrap : ∀ e, multiply ops A B = .thrown e → e.cls = .runtime_error →
      e = multiplicationFailed mulOverflow ∨ e = multiplicationFailed sumOverflow := by
    intro e h hcls
    obtain ⟨cause, hcause, rfl⟩ := multiply_runtime_error ops A B hreads e h hcls
    rcases hcause with rfl | rfl
    · exact Or.inl rfl
    · exact Or.inr rfl
  refine ⟨?_, ?_, hwrap, ?_⟩
  · intro i j k hi hj hk
    obtain ⟨a, b, ha, hb⟩ := hreads i j k hi hj hk
    exact ⟨⟨a, ha⟩, ⟨b, hb⟩⟩
  · intro R hR i j hi hj R1 R2 h1 h2 v
    obtain ⟨hwf, hr, hc⟩ := new_WF ops A.rows B.cols R hR
    obtain ⟨hwf1, hr1, hc1⟩ := rowLoop_WF ops A B A.cols B.cols R hwf i R1 h1
    obtain ⟨hwf2, hr2, hc2⟩ := colLoop_WF ops A B A.cols i R1 hwf1 j R2 h2
    exact WF_set R2 hwf2 i j v (by omega) (by omega)
  · intro h
    rcases hwrap _ h rfl with h2 | h2
    · exact multiplicationFailed_indexOutOfRange_ne.1 h2
    · exact multiplicationFailed_indexOutOfRange_ne.2 h2

theorem loop_accesses_in_bounds_witness :
    (∀ i j k, i < exampleA.getRows → j < exampleB.getCols → k < exampleA.getCols →
      (∃ a, exampleA.get i k = .ok a) ∧ (∃ b, exampleB.get k j = .ok b)) ∧
    (∀ R, Matrix.new ratOps exampleA.getRows exampleB.getCols = .ok R →
      ∀ i j, i < exampleA.getRows → j < exampleB.getCols →
        ∀ R1 R2, rowLoop ratOps exampleA exampleB exampleA.getCols exampleB.getCols R i = .ok R1 →
          colLoop ratOps exampleA exampleB exampleA.getCols i R1 j = .ok R2 →
          ∀ v, ∃ R3, R2.set i j v = .ok R3) ∧
    (∀ e, multiply ratOps exampleA exampleB = .thrown e → e.cls = .runtime_error →
      e = multiplicationFailed mulOverflow ∨ e = multiplicationFailed sumOverflow) ∧
    multiply ratOps exampleA exampleB ≠ .thrown (multiplicationFailed indexOutOfRange) :=
  loop_accesses_in_bounds ratOps exampleA exampleB
    (by simp [Matrix.WF, exampleA, valuesA]) (by simp [Matrix.WF, exampleB, valuesB]) rfl

/-! ## The first guard that fires -/

theorem guardFiresAt_eq_true (ops : Scalar α) (A B : Matrix α) (i j k : Nat)
    (h : guardFiresAt ops A B i j k = true) :
    ∃ sum a b, sumLoop ops A B i j k = .ok sum ∧ A.get i k = .ok a ∧ B.get k j = .ok b ∧
      (termGuard ops a b (ops.mul a b) ||
        sumGuard ops sum (ops.mul a b) (ops.add sum (ops.mul a b))) = true := by
  unfold guardFiresAt at h
  cases hs : sumLoop ops A B i j k with
  | ok s =>
    cases ha : A.get i k with
    | ok a =>
      cases hb : B.get k j with
      | ok b =>
        simp only [hs, ha, hb] at h
        exact ⟨s, a, b, rfl, rfl, rfl, h⟩
      | thrown e => simp [hs, ha, hb] at h
      | undefined => simp [hs, ha, hb] at h
    | thrown e => simp [hs, ha] at h
    | undefined => simp [hs, ha] at h
  | thrown e => simp [hs] at h
  | undefined => simp [hs] at h

/-- A pass through the loop body in which a guard fires throws the exception of
the per-term test if that test is true, of the per-accumulation test otherwise. -/
theorem accumulate_of_fire (ops : Scalar α) (sum a b : α)
    (h : (termGuard ops a b (ops.mul a b) ||
      sumGuard ops sum (ops.mul a b) (ops.add sum (ops.mul a b))) = true) :
    accumulate ops sum a b = .thrown (causeOf ops a b) := by
  cases h1 : termGuard ops a b (ops.mul a b) with
  | true => simp [accumulate, causeOf, h1]
  | false =>
    rw [h1, Bool.false_or] at h
    simp [accumulate, causeOf, h1, h]

/-- A `k` loop that stops with an exception has a guard firing at some `k`, as
long as every element it reads can be read. -/
theorem sumLoop_thrown_fires (ops : Scalar α) (A B : Matrix α) (i j : Nat) :
    ∀ n, (∀ k, k < n → ∃ a b, A.get i k = .ok a ∧ B.get k j = .ok b) →
      ∀ e, sumLoop ops A B i j n = .thrown e →
        ∃ k, k < n ∧ guardFiresAt ops A B i j k = true := by
  intro n
  induction n with
  | zero =>
    intro _ e h
    simp [sumLoop] at h
  | succ n ih =>
    intro hreads e h
    cases hs : sumLoop ops A B i j n with
    | ok s =>
      obtain ⟨a, b, ha, hb⟩ := hreads n (by omega)
      refine ⟨n, by omega, ?_⟩
      simp only [sumLoop, hs, ha, hb] at h
      rcases accumulate_cases ops s a b with ⟨hacc, _⟩ | ⟨_, _, _, hfire⟩
      · rw [hacc] at h
        cases h
      · simp only [guardFiresAt, hs, ha, hb]
        exact hfire
    | thrown e2 =>
      obtain ⟨k, hk, hfire⟩ := ih (fun k hk => hreads k (by omega)) e2 hs
      exact ⟨k, by omega, hfire⟩
    | undefined =>
      simp [sumLoop, hs] at h

/-- C15: the loops visit the triples `(i, j, k)` with `i` outermost, then `j`, then
`k`, test the per-term guard before the per-accumulation guard and stop at the
first guard that fires.  For well-formed, dimension-compatible operands whose
result size passes the size test: if a guard fires at `(i, j, k)` and at no
triple visited before it, `multiply` throws the `runtime_error` that wraps the
exception of that triple, which is the per-term overflow if the per-term test is
true there and the per-accumulation overflow otherwise. -/
theorem multiply_first_cause (ops : Scalar α) (A B : Matrix α)
    (hA : A.WF) (hB : B.WF) (hdim : A.getCols = B.getRows)
    (hsize : A.getRows * B.getCols ≤ SIZE_MAX)
    (i j k : Nat) (hi : i < A.getRows) (hj : j < B.getCols) (hk : k < A.getCols)
    (hfire : guardFiresAt ops A B i j k = true)
    (hfirst : ∀ i2 j2 k2, i2 < A.getRows → j2 < B.getCols → k2 < A.getCols →
      visitedBefore i2 j2 k2 i j k → guardFiresAt ops A B i2 j2 k2 = false) :
    ∃ sum a b, sumLoop ops A B i j k = .ok sum ∧ A.get i k = .ok a ∧ B.get k j = .ok b ∧
      multiply ops A B = .thrown ⟨.runtime_error,
        multiplyFailedHead ++
          (if termGuard ops a b (ops.mul a b) then mulOverflow else sumOverflow).what⟩ := by
  simp only [getRows, getCols] at hdim hsize hi hj hk hfirst
  obtain ⟨sum, a, b, hs, ha, hb, hg⟩ := guardFiresAt_eq_true ops A B i j k hfire
  refine ⟨sum, a, b, hs, ha, hb, ?_⟩
  have hreads := fun i2 j2 k2 h1 h2 h3 => WF_reads A B hA hB hdim i2 j2 k2 h1 h2 h3
  have hsum : ∀ i2 j2, i2 < A.rows → j2 < B.cols →
      (∃ s, sumLoop ops A B i2 j2 A.cols = .ok s) ∨
      (∃ e, IsLoopCause e ∧ sumLoop ops A B i2 j2 A.cols = .thrown e) := fun i2 j2 h1 h2 =>
    sumLoop_total ops A B i2 j2 A.cols (fun k2 h3 => hreads i2 j2 k2 h1 h2 h3) A.cols
      (Nat.le_refl _)
  -- the cells visited before `(i, j)` complete
  have hprev : ∀ i2 j2, i2 < A.rows → j2 < B.cols → (i2 < i ∨ (i2 = i ∧ j2 < j)) →
      ∀ e, sumLoop ops A B i2 j2 A.cols ≠ .thrown e := by
    intro i2 j2 h1 h2 hlt e he
    obtain ⟨k2, hk2, hf2⟩ := sumLoop_thrown_fires ops A B i2 j2 A.cols
      (fun k2 h3 => hreads i2 j2 k2 h1 h2 h3) e he
    have hvis : visitedBefore i2 j2 k2 i j k := by
      rcases hlt with hlt | hlt
      · exact Or.inl hlt
      · exact Or.inr (Or.inl hlt)
    rw [hfirst i2 j2 k2 h1 h2 hk2 hvis] at hf2
    cases hf2
  -- the cell `(i, j)` stops with the exception of the triple `(i, j, k)`
  have hcell : sumLoop ops A B i j A.cols = .thrown (causeOf ops a b) := by
    have h1 : sumLoop ops A B i j (k + 1) = .thrown (causeOf ops a b) := by
      simp only [sumLoop, hs, ha, hb, accumulate_of_fire ops sum a b hg]
    have h2 := sumLoop_thrown_mono ops A B i j (k + 1) _ h1 (A.cols - (k + 1))
    have h3 : k + 1 + (A.cols - (k + 1)) = A.cols := by omega
    rw [h3] at h2
    exact h2
  have hp : B.cols ≠ 0 := by omega
  have hm : A.rows ≠ 0 := by omega
  have hgd : resultSizeGuard A.rows B.cols = false := by
    cases hgd : resultSizeGuard A.rows B.cols with
    | false => rfl
    | true =>
      have := (resultSizeGuard_iff A.rows B.cols hp).mp hgd
      omega
  have hnew : Matrix.new ops A.rows B.cols =
      .ok ⟨List.replicate A.rows (List.replicate B.cols ops.zero), A.rows, B.cols⟩ := by
    simp [Matrix.new, hm, hp]
  obtain ⟨hwf, hr, hc⟩ := new_WF ops A.rows B.cols _ hnew
  -- the rows before `i` complete
  have hrow : ∃ R1, rowLoop ops A B A.cols B.cols
      ⟨List.replicate A.rows (List.replicate B.cols ops.zero), A.rows, B.cols⟩ i = .ok R1 ∧
      R1.WF ∧ R1.rows = A.rows ∧ R1.cols = B.cols := by
    rcases rowLoop_total ops A B A.cols _ hwf hsum i (Nat.le_of_lt hi) with
      ⟨R1, h1, hwf1, hr1, hc1, _⟩ | ⟨e, _, _, i2, j2, hi2, hj2, ht⟩
    · exact ⟨R1, h1, hwf1, hr1, hc1⟩
    · exact absurd ht (hprev i2 j2 (by omega) hj2 (Or.inl hi2) e)
  obtain ⟨R1, hR1, hwf1, hr1, hc1⟩ := hrow
  -- the columns before `j` of row `i` complete
  have hcol : ∃ R2, colLoop ops A B A.cols i R1 j = .ok R2 := by
    rcases colLoop_total ops A B A.cols i R1 hwf1 (by omega)
        (fun j2 hj2 => hsum i j2 hi (by omega)) j (by omega) with
      ⟨R2, h2, _⟩ | ⟨e, _, _, j2, hj2, ht⟩
    · exact ⟨R2, h2⟩
    · exact absurd ht (hprev i j2 hi (by omega) (Or.inr ⟨rfl, hj2⟩) e)
  obtain ⟨R2, hR2⟩ := hcol
  have hcol2 : colLoop ops A B A.cols i R1 B.cols = .thrown (causeOf ops a b) := by
    have h1 : colLoop ops A B A.cols i R1 (j + 1) = .thrown (causeOf ops a b) := by
      simp only [colLoop, hR2, hcell]
    have h2 := colLoop_thrown_mono ops A B A.cols i R1 (j + 1) _ h1 (B.cols - (j + 1))
    have h3 : j + 1 + (B.cols - (j + 1)) = B.cols := by omega
    rw [h3] at h2
    exact h2
  have hrow2 : rowLoop ops A B A.cols B.cols
      ⟨List.replicate A.rows (List.replicate B.cols ops.zero), A.rows, B.cols⟩ A.rows =
      .thrown (causeOf ops a b) := by
    have h1 : rowLoop ops A B A.cols B.cols
        ⟨List.replicate A.rows (List.replicate B.cols ops.zero), A.rows, B.cols⟩ (i + 1) =
        .thrown (causeOf ops a b) := by
      simp only [rowLoop, hR1, hcol2]
    have h2 := rowLoop_thrown_mono ops A B A.cols B.cols _ (i + 1) _ h1 (A.rows - (i + 1))
    have h3 : i + 1 + (A.rows - (i + 1)) = A.rows := by omega
    rw [h3] at h2
    exact h2
  rw [multiply_of_guards ops A B hdim hp hgd, hnew]
  simp only [hrow2, catchBlock, multiplicationFailed, causeOf]

theorem multiply_first_cause_witness :
    guardFiresAt extOps firstOperand secondOperand 0 1 1 = true ∧
    multiply extOps firstOperand secondOperand = .thrown (multiplicationFailed mulOverflow) ∧
    ∃ sum a b, sumLoop extOps firstOperand secondOperand 0 1 1 = .ok sum ∧
      firstOperand.get 0 1 = .ok a ∧ secondOperand.get 1 1 = .ok b ∧
      multiply extOps firstOperand secondOperand = .thrown ⟨.runtime_error,
        multiplyFailedHead ++
          (if termGuard extOps a b (extOps.mul a b) then mulOverflow else sumOverflow).what⟩ :=
  ⟨by decide!, by decide!,
    multiply_first_cause extOps firstOperand secondOperand
      (by simp [Matrix.WF, firstOperand]) (by simp [Matrix.WF, secondOperand]) rfl
      (by norm_num [SIZE_MAX, firstOperand, secondOperand, getRows, getCols])
      0 1 1 (by decide) (by decide) (by decide) (by decide!)
      (fun i2 j2 k2 h1 h2 h3 hv => by
        have e1 : firstOperand.getRows = 1 := rfl
        have e2 : secondOperand.getCols = 2 := rfl
        have e3 : firstOperand.getCols = 2 := rfl
        rw [e1] at h1
        rw [e2] at h2
        rw [e3] at h3
        interval_cases i2
        interval_cases j2 <;> interval_cases k2 <;>
          first
          | decide!
          | (exfalso; simp [visitedBefore] at hv))⟩

end MatrixMultiply
